import Mathlib

/-! The scanner client of `pkg/scanner/scanner.go`.

A shallow embedding of the scanner client of polaris: the three operations
`Scan`, `Get` and `GetAll`, the URLs and bodies they hand to the HTTP
transport, and what they return.

Go strings are byte sequences, so a string is a list of bytes.  The standard
library functions the client calls on its data (`url.QueryEscape`,
`json.Marshal`, `utf8.DecodeRuneInString`) are embedded from the Go standard
library; the HTTP transport, the reflective part of the JSON decoder and the
Go release's JSON string encoder are parameters of the model (`World`).
-/

namespace scanner

/-! ## Go values -/

/-- A Go `byte`. -/
abbrev GoByte := Fin 256

/-- A Go `string`: an immutable sequence of bytes. -/
abbrev GoString := List GoByte

/-- A Go slice: `none` is the nil slice, `some l` a non-nil slice holding `l`. -/
abbrev Slice (α : Type) := Option (List α)

/-- The elements a `range` loop over the slice visits, in order. -/
def Slice.elems {α : Type} : Slice α → List α
  | none => []
  | some l => l

/-- The byte of an ASCII character literal. -/
def ch (c : Char) : GoByte := Fin.ofNat c.toNat

/-- The bytes (UTF-8) of a string literal. -/
def str (s : String) : GoString :=
  (s.data.flatMap String.utf8EncodeChar).map (fun b => b.val)

/-- A non-nil Go `error` value. -/
structure GoError where
  msg : String
  deriving DecidableEq, Repr

/-- The slice expression `s[:hi]` on a string: it panics (`none`) unless
`0 ≤ hi ≤ len(s)`. -/
def sliceTo (s : GoString) (hi : Int) : Option GoString :=
  if 0 ≤ hi ∧ hi ≤ (s.length : Int) then some (s.take hi.toNat) else none

/-! ## `net/url`: `QueryEscape` -/

/-- The table `upperhex` of `net/url`. -/
def upperhex : GoString := str "0123456789ABCDEF"

/-- Indexing `upperhex[i]` for a nibble `i`. -/
def upperhexAt (i : GoByte) : GoByte := upperhex.getD i.val 0

/-- The function `shouldEscape(c, encodeQueryComponent)` of `net/url`: the
unreserved characters of RFC 3986 §2.3 are kept, everything else is escaped
(in a query component the reserved characters are escaped too). -/
def shouldEscape (c : GoByte) : Bool :=
  if (ch 'a' ≤ c ∧ c ≤ ch 'z') ∨ (ch 'A' ≤ c ∧ c ≤ ch 'Z') ∨ (ch '0' ≤ c ∧ c ≤ ch '9') then
    false
  else if c = ch '-' ∨ c = ch '_' ∨ c = ch '.' ∨ c = ch '~' then
    false
  else if c = ch '$' ∨ c = ch '&' ∨ c = ch '+' ∨ c = ch ',' ∨ c = ch '/' ∨ c = ch ':'
      ∨ c = ch ';' ∨ c = ch '=' ∨ c = ch '?' ∨ c = ch '@' then
    true
  else
    true

/-- The first loop of `escape`: one step of counting, on `(spaceCount, hexCount)`. -/
def countStep (acc : Nat × Nat) (c : GoByte) : Nat × Nat :=
  if shouldEscape c then
    if c = ch ' ' then (acc.1 + 1, acc.2) else (acc.1, acc.2 + 1)
  else acc

/-- The first loop of `escape`: `(spaceCount, hexCount)` of the string. -/
def countEscapes (s : GoString) : Nat × Nat := s.foldl countStep (0, 0)

/-- The second loop of `escape`, on the rest of the input, the buffer `t` and
the write index `j`. -/
def escapeLoop : GoString → List GoByte → Nat → List GoByte
  | [], t, _ => t
  | c :: rest, t, j =>
    if c = ch ' ' then
      escapeLoop rest (t.set j (ch '+')) (j + 1)
    else if shouldEscape c then
      escapeLoop rest
        (((t.set j (ch '%')).set (j + 1) (upperhexAt (c >>> 4))).set (j + 2)
          (upperhexAt (c &&& 15)))
        (j + 3)
    else
      escapeLoop rest (t.set j c) (j + 1)

/-- The function `escape(s, encodeQueryComponent)` of `net/url`. -/
def escape (s : GoString) : GoString :=
  let (spaceCount, hexCount) := countEscapes s
  if spaceCount = 0 ∧ hexCount = 0 then
    s
  else
    let required := s.length + 2 * hexCount
    let t : List GoByte := List.replicate required 0
    if hexCount = 0 then
      s.map (fun c => if c = ch ' ' then ch '+' else c)
    else
      escapeLoop s t 0

/-- The function `url.QueryEscape`. -/
def QueryEscape (s : GoString) : GoString := escape s

/-- What the second loop of `escape` writes for one input byte. -/
def escapeByte (c : GoByte) : GoString :=
  if c = ch ' ' then [ch '+']
  else if shouldEscape c then [ch '%', upperhexAt (c >>> 4), upperhexAt (c &&& 15)]
  else [c]

/-- The number of bytes of the string that `escape` writes as three. -/
def hexBytes (s : GoString) : Nat :=
  (s.filter (fun c => shouldEscape c && !decide (c = ch ' '))).length

/-- The number of spaces of the string. -/
def spaceBytes (s : GoString) : Nat :=
  (s.filter (fun c => decide (c = ch ' '))).length

/-! ## `unicode/utf8` -/

/-- The constant `utf8.RuneError`, U+FFFD. -/
def RuneError : Nat := 0xFFFD

/-- The table `first` of `unicode/utf8`: information on the first byte of a
UTF-8 sequence.  `0xF0` (`as`) is ASCII, `0xF1` (`xx`) an invalid byte; else
the low three bits are the size and the high four bits index `acceptRanges`. -/
def first (b : GoByte) : Nat :=
  if b.val < 0x80 then 0xF0
  else if b.val < 0xC2 then 0xF1
  else if b.val < 0xE0 then 0x02
  else if b.val = 0xE0 then 0x13
  else if b.val < 0xED then 0x03
  else if b.val = 0xED then 0x23
  else if b.val < 0xF0 then 0x03
  else if b.val = 0xF0 then 0x34
  else if b.val < 0xF4 then 0x04
  else if b.val = 0xF4 then 0x44
  else 0xF1

/-- The table `acceptRanges`: the range `(lo, hi)` of valid second bytes. -/
def acceptRanges (i : Nat) : GoByte × GoByte :=
  match i with
  | 0 => (0x80, 0xBF)
  | 1 => (0xA0, 0xBF)
  | 2 => (0x80, 0x9F)
  | 3 => (0x90, 0xBF)
  | 4 => (0x80, 0x8F)
  | _ => (0, 0)

/-- The function `utf8.DecodeRuneInString`: the first rune of the string and
its width in bytes; `(RuneError, 1)` is an invalid encoding.  The branches on
a missing second, third or fourth byte stand for index expressions that the
length test before them keeps in range. -/
def DecodeRuneInString (s : GoString) : Nat × Nat :=
  match s with
  | [] => (RuneError, 0)
  | s0 :: rest =>
    let x := first s0
    if x ≥ 0xF0 then
      -- the mask `rune(x) << 31 >> 31` is all ones for `xx` (odd) and zero for `as`
      (if x % 2 = 1 then RuneError else s0.val, 1)
    else
      let sz := x &&& 7
      let accept := acceptRanges (x >>> 4)
      if s.length < sz then (RuneError, 1)
      else
        match rest with
        | [] => (RuneError, 1)
        | s1 :: rest1 =>
          if s1 < accept.1 ∨ accept.2 < s1 then (RuneError, 1)
          else if sz ≤ 2 then
            (((s0 &&& 0x1F).val <<< 6) ||| (s1 &&& 0x3F).val, 2)
          else
            match rest1 with
            | [] => (RuneError, 1)
            | s2 :: rest2 =>
              if s2 < 0x80 ∨ 0xBF < s2 then (RuneError, 1)
              else if sz ≤ 3 then
                (((s0 &&& 0x0F).val <<< 12) ||| ((s1 &&& 0x3F).val <<< 6)
                  ||| (s2 &&& 0x3F).val, 3)
              else
                match rest2 with
                | [] => (RuneError, 1)
                | s3 :: _ =>
                  if s3 < 0x80 ∨ 0xBF < s3 then (RuneError, 1)
                  else
                    (((s0 &&& 0x07).val <<< 18) ||| ((s1 &&& 0x3F).val <<< 12)
                      ||| ((s2 &&& 0x3F).val <<< 6) ||| (s3 &&& 0x3F).val, 4)

/-- The loop of `utf8.ValidString` on the rest of the string; `fuel` bounds the
number of iterations. -/
def ValidStringLoop : Nat → GoString → Bool
  | 0, s => s.isEmpty
  | _ + 1, [] => true
  | fuel + 1, si :: rest =>
    if si.val < 0x80 then ValidStringLoop fuel rest
    else
      let x := first si
      if x = 0xF1 then false
      else
        let size := x &&& 7
        if (si :: rest).length < size then false
        else
          let accept := acceptRanges (x >>> 4)
          match rest with
          | [] => false
          | c1 :: rest1 =>
            if c1 < accept.1 ∨ accept.2 < c1 then false
            else if size = 2 then ValidStringLoop fuel rest1
            else
              match rest1 with
              | [] => false
              | c2 :: rest2 =>
                if c2 < 0x80 ∨ 0xBF < c2 then false
                else if size = 3 then ValidStringLoop fuel rest2
                else
                  match rest2 with
                  | [] => false
                  | c3 :: rest3 =>
                    if c3 < 0x80 ∨ 0xBF < c3 then false
                    else ValidStringLoop fuel rest3

/-- The function `utf8.ValidString`: whether the string consists entirely of
valid UTF-8-encoded runes. -/
def ValidString (s : GoString) : Bool := ValidStringLoop s.length s

/-! ## `encoding/json`: `Marshal` on a slice of strings -/

/-- The table `hex` of `encoding/json`. -/
def hex : GoString := str "0123456789abcdef"

/-- Indexing `hex[i]` for a nibble `i`. -/
def hexAt (i : Nat) : GoByte := hex.getD i 0

/-- The table `htmlSafeSet`: the ASCII bytes that a JSON string holds without
escaping, which are all from the space on except `"`, `&`, `<`, `>` and `\`. -/
def htmlSafeSet (b : GoByte) : Bool :=
  0x20 ≤ b.val && b.val < 0x80 && b != 0x22 && b != 0x26 && b != 0x3C && b != 0x3E
    && b != 0x5C

/-- The string encoder of the Go release the client is built with; the
releases differ in two places.  `shortControl`: Go 1.22 and later write the
control bytes 0x08 and 0x0C as `\b` and `\f`, earlier releases as `\u0008` and
`\u000c`.  `rawReplacement`: the json v2 engine writes the replacement of an
invalid byte as the three bytes of U+FFFD, the older encoders as the escape
`\ufffd`. -/
structure Encoder where
  shortControl : Bool
  rawReplacement : Bool
  deriving DecidableEq, Repr

/-- The encoder of the Go releases before 1.22. -/
def Encoder.legacy : Encoder := { shortControl := false, rawReplacement := false }

/-- The encoder of Go 1.22 and later. -/
def Encoder.go122 : Encoder := { shortControl := true, rawReplacement := false }

/-- The encoder of `encoding/json` on the json v2 engine. -/
def Encoder.v2 : Encoder := { shortControl := true, rawReplacement := true }

/-- What `appendString` writes for an ASCII byte outside `htmlSafeSet`. -/
def escapeASCII (enc : Encoder) (b : GoByte) : GoString :=
  if b = 0x5C ∨ b = 0x22 then [0x5C, b]
  else if enc.shortControl = true ∧ b = 0x08 then [0x5C, ch 'b']
  else if enc.shortControl = true ∧ b = 0x0C then [0x5C, ch 'f']
  else if b = 0x0A then [0x5C, ch 'n']
  else if b = 0x0D then [0x5C, ch 'r']
  else if b = 0x09 then [0x5C, ch 't']
  else [0x5C, ch 'u', ch '0', ch '0', hexAt (b.val >>> 4), hexAt (b.val &&& 0xF)]

/-- The loop of `appendString` (with `escapeHTML` set) on the rest of the
source; `fuel` bounds the number of iterations.  Bytes that need no escaping
are written as the loop passes them. -/
def appendStringLoop (enc : Encoder) : Nat → GoString → GoString
  | 0, _ => []
  | _ + 1, [] => []
  | fuel + 1, b :: rest =>
    if b.val < 0x80 then
      if htmlSafeSet b then b :: appendStringLoop enc fuel rest
      else escapeASCII enc b ++ appendStringLoop enc fuel rest
    else
      let (c, size) := DecodeRuneInString (b :: rest)
      if c = RuneError ∧ size = 1 then
        (if enc.rawReplacement = true then [0xEF, 0xBF, 0xBD]
          else [0x5C, ch 'u', ch 'f', ch 'f', ch 'f', ch 'd'])
          ++ appendStringLoop enc fuel rest
      else if c = 0x2028 ∨ c = 0x2029 then
        [0x5C, ch 'u', ch '2', ch '0', ch '2', hexAt (c &&& 0xF)]
          ++ appendStringLoop enc fuel ((b :: rest).drop size)
      else
        (b :: rest).take size ++ appendStringLoop enc fuel ((b :: rest).drop size)

/-- The function `appendString` of `encoding/json` with `escapeHTML` set: the
JSON string literal of the source. -/
def appendString (enc : Encoder) (src : GoString) : GoString :=
  0x22 :: (appendStringLoop enc src.length src ++ [0x22])

/-- The loop of the array encoder from index `i` on: a comma before every
element but the first. -/
def encodeArrayFrom (enc : Encoder) : Nat → List GoString → GoString
  | _, [] => []
  | i, x :: xs =>
    (if i > 0 then [ch ','] else []) ++ appendString enc x ++ encodeArrayFrom enc (i + 1) xs

/-- The function `json.Marshal` on a value of type `[]string`: the nil slice is
`null`, any other slice the array of its strings. -/
def Marshal (enc : Encoder) (images : Slice GoString) : GoString :=
  match images with
  | none => str "null"
  | some l => ch '[' :: (encodeArrayFrom enc 0 l ++ [ch ']'])

/-! ## The data model of `scanner.go` -/

/-- The struct `VulnerabilityDescription`. -/
structure VulnerabilityDescription where
  CVE : GoString
  Package : GoString
  InstalledVersion : GoString
  FixedVersion : GoString
  Title : GoString
  Description : GoString
  Severity : GoString
  References : Slice GoString
  deriving DecidableEq, Repr

/-- The struct `TrivyScanTarget`. -/
structure TrivyScanTarget where
  Target : GoString
  Vulnerabilities : Slice VulnerabilityDescription
  deriving DecidableEq, Repr

/-- The struct `ImageScanResult`: details about all the found vulnerabilities. -/
structure ImageScanResult where
  Image : GoString
  ScanResult : GoString
  Description : GoString
  Targets : Slice TrivyScanTarget
  deriving DecidableEq, Repr

/-- The struct `VulnerabilityCounter`: amount of issues with one severity. -/
structure VulnerabilityCounter where
  Severity : GoString
  Count : Int
  deriving DecidableEq, Repr

/-- The struct `ImageScanResultSummary`: the vulnerabilities summary. -/
structure ImageScanResultSummary where
  Image : GoString
  ScanResult : GoString
  Description : GoString
  Counters : Slice VulnerabilityCounter
  deriving DecidableEq, Repr

/-- The struct `Scanner`; the map `Results` is nil (`none`) unless filled. -/
structure Scanner where
  Results : Option (List (GoString × ImageScanResult))
  ScannerURL : GoString
  deriving DecidableEq, Repr

/-- The zero value of `ImageScanResult`: empty strings and a nil slice. -/
def ImageScanResult.zero : ImageScanResult :=
  { Image := [], ScanResult := [], Description := [], Targets := none }

/-- The function `NewScanner`. -/
def NewScanner (url : GoString) : Scanner :=
  { Results := none, ScannerURL := url }

/-! ## The environment: HTTP transport and JSON decoder -/

/-- What the client reads of an `http.Response`. -/
structure Response where
  StatusCode : Int
  Body : GoString
  deriving DecidableEq, Repr

/-- The environment of one call.  `httpGet` and `httpPost` are `http.Get` and
`http.Post`: an error, or a response whatever its status code.  `readValue` is
the scanner of `json.Decoder`, which isolates the first complete JSON value of
the body or fails with a syntax (or read) error.  The `unmarshal` functions are
the reflective half of the decoder on the two target types: the new content of
the target and the error, if any.  `jsonEncoder` is the string encoder of the
Go release in use. -/
structure World where
  jsonEncoder : Encoder
  httpGet : GoString → Except GoError Response
  httpPost : GoString → GoString → GoString → Except GoError Response
  readValue : GoString → Except GoError GoString
  unmarshalScanResult : GoString → ImageScanResult → ImageScanResult × Option GoError
  unmarshalSummaries : GoString → Slice ImageScanResultSummary →
    Slice ImageScanResultSummary × Option GoError

/-- The method `(*json.Decoder).Decode` on a fresh decoder over `body`: the
whole value is read first, and only a value that scanned is unmarshalled into
the target `v`; on a scan error the target is not touched. -/
def Decode {α : Type} (w : World) (unmarshal : GoString → α → α × Option GoError)
    (body : GoString) (v : α) : α × Option GoError :=
  match w.readValue body with
  | .error e => (v, some e)
  | .ok value => unmarshal value v

/-- What a call does to the outside, in order. -/
inductive Event where
  | httpGet (url : GoString)
  | httpPost (url contentType body : GoString)
  | logErrorf (format : String) (err : GoError)
  | decode (body : GoString)
  | logPrint
  | bodyClose
  deriving DecidableEq, Repr

/-- The effects of a call, the value it returns and the error it returns
(`none` is the nil error). -/
structure Outcome (α : Type) where
  trace : List Event
  value : α
  err : Option GoError
  deriving DecidableEq, Repr

/-- The HTTP requests among the events. -/
def httpRequests (trace : List Event) : List Event :=
  trace.filter (fun e =>
    match e with
    | .httpGet _ => true
    | .httpPost _ _ _ => true
    | _ => false)

/-- The bodies handed to the JSON decoder among the events. -/
def decodedBodies (trace : List Event) : List GoString :=
  trace.filterMap (fun e =>
    match e with
    | .decode body => some body
    | _ => none)

/-! ## The client -/

/-- The method `Scan`: submits the images for scanning; it returns nothing. -/
def Scan (w : World) (s : Scanner) (images : Slice GoString) : List Event :=
  let bytesRepresentation := Marshal w.jsonEncoder images
  let scansURL := s.ScannerURL ++ str "/scan/images"
  match w.httpPost scansURL (str "application/json") bytesRepresentation with
  | .error err =>
    [.httpPost scansURL (str "application/json") bytesRepresentation,
      .logErrorf "Error requesting image scan %v" err]
  | .ok resp =>
    [.httpPost scansURL (str "application/json") bytesRepresentation,
      .decode resp.Body, .logPrint, .bodyClose]

/-- The variable `scanResultURL` of `Get`; `fmt.Sprintf` with `%s` verbs on
strings is concatenation. -/
def Get_scanResultURL (s : Scanner) (image : GoString) : GoString :=
  s.ScannerURL ++ str "/scan-results/trivy/" ++ QueryEscape image

/-- The method `Get`: the detailed scan result of a single image. -/
def Get (w : World) (s : Scanner) (image : GoString) : Outcome ImageScanResult :=
  let scanResultURL := Get_scanResultURL s image
  match w.httpGet scanResultURL with
  | .error err =>
    { trace := [.httpGet scanResultURL,
        .logErrorf "Error requesting image scan result %v" err],
      value := ImageScanResult.zero,
      err := some err }
  | .ok resp =>
    let scanResult := (Decode w w.unmarshalScanResult resp.Body ImageScanResult.zero).1
    { trace := [.httpGet scanResultURL, .decode resp.Body, .logPrint, .bodyClose],
      value := scanResult,
      err := none }

/-- The variable `getURL` of `GetAll` when the loop over `images` has ended. -/
def GetAll_getURL (s : Scanner) (images : Slice GoString) : GoString :=
  images.elems.foldl (fun getURL image => getURL ++ str "&images=" ++ QueryEscape image)
    (s.ScannerURL ++ str "/scan-results/trivy?")

/-- The variable `scanRequestsURL` of `GetAll`: `getURL[:len(getURL)-1]`, or
`none` where the slice expression panics. -/
def GetAll_scanRequestsURL (s : Scanner) (images : Slice GoString) : Option GoString :=
  let getURL := GetAll_getURL s images
  sliceTo getURL ((getURL.length : Int) - 1)

/-- The method `GetAll`: the scan result summaries of an array of images;
`none` is a run-time panic. -/
def GetAll (w : World) (s : Scanner) (images : Slice GoString) :
    Option (Outcome (Slice ImageScanResultSummary)) :=
  match GetAll_scanRequestsURL s images with
  | none => none
  | some scanRequestsURL =>
    match w.httpGet scanRequestsURL with
    | .error err =>
      some { trace := [.httpGet scanRequestsURL,
               .logErrorf "Error requesting images scan results %v" err],
             value := none,
             err := some err }
    | .ok resp =>
      let scanResults := (Decode w w.unmarshalSummaries resp.Body none).1
      some { trace := [.httpGet scanRequestsURL, .decode resp.Body, .logPrint, .bodyClose],
             value := scanResults,
             err := none }

/-! ## Percent-encoding as the specification words it -/

/-- The unreserved characters: letters, digits, `-`, `_`, `.` and `~`. -/
def isUnreserved (c : GoByte) : Bool :=
  (ch 'a' ≤ c && c ≤ ch 'z') || (ch 'A' ≤ c && c ≤ ch 'Z') || (ch '0' ≤ c && c ≤ ch '9')
    || c == ch '-' || c == ch '_' || c == ch '.' || c == ch '~'

/-- The upper-case hex digit of a nibble. -/
def hexDigitUpper (n : Nat) : GoByte :=
  if n < 10 then Fin.ofNat (48 + n) else Fin.ofNat (65 + (n - 10))

/-- Percent-encoding of one byte: an unreserved character is copied, any other
byte becomes `%` and its two upper-case hex digits. -/
def percentEncodeByte (c : GoByte) : GoString :=
  if isUnreserved c then [c]
  else [ch '%', hexDigitUpper (c.val / 16), hexDigitUpper (c.val % 16)]

/-- Percent-encoding of a string, byte by byte. -/
def percentEncode (s : GoString) : GoString := s.flatMap percentEncodeByte

/-- Percent-encoding of a string, except that a space becomes `+`. -/
def percentEncodePlus (s : GoString) : GoString :=
  s.flatMap (fun c => if c = ch ' ' then [ch '+'] else percentEncodeByte c)

/-- The query string of `images` parameters, each with a leading `&`. -/
def imagesQuery (images : List GoString) : GoString :=
  images.flatMap (fun image => str "&images=" ++ QueryEscape image)

/-! ## Reading a JSON array of strings back

A reference decoder (RFC 8259) for the JSON texts that are arrays of strings:
what the receiver of the body of `Scan` reads out of it. -/

/-- The value of a hex digit, in either case. -/
def hexValue (c : GoByte) : Option Nat :=
  if ch '0' ≤ c ∧ c ≤ ch '9' then some (c.val - 48)
  else if ch 'a' ≤ c ∧ c ≤ ch 'f' then some (c.val - 87)
  else if ch 'A' ≤ c ∧ c ≤ ch 'F' then some (c.val - 55)
  else none

/-- The four hex digits of a `\u` escape: their value and the rest. -/
def readHex4 : GoString → Option (Nat × GoString)
  | h1 :: h2 :: h3 :: h4 :: rest =>
    match hexValue h1, hexValue h2, hexValue h3, hexValue h4 with
    | some a, some b, some c, some d => some (a * 4096 + b * 256 + c * 16 + d, rest)
    | _, _, _, _ => none
  | _ => none

/-- The UTF-8 encoding of a code point. -/
def utf8Encode (r : Nat) : GoString :=
  if r < 0x80 then [Fin.ofNat r]
  else if r < 0x800 then [Fin.ofNat (0xC0 + r / 64), Fin.ofNat (0x80 + r % 64)]
  else if r < 0x10000 then
    [Fin.ofNat (0xE0 + r / 4096), Fin.ofNat (0x80 + r / 64 % 64), Fin.ofNat (0x80 + r % 64)]
  else
    [Fin.ofNat (0xF0 + r / 262144), Fin.ofNat (0x80 + r / 4096 % 64),
      Fin.ofNat (0x80 + r / 64 % 64), Fin.ofNat (0x80 + r % 64)]

/-- One escape sequence, read after its backslash: the bytes it stands for and
the rest.  A `\u` escape is one code point, or the first half of a surrogate
pair that a second `\u` escape completes. -/
def readEscape : GoString → Option (GoString × GoString)
  | [] => none
  | e :: rest =>
    if e = 0x22 ∨ e = 0x5C ∨ e = ch '/' then some ([e], rest)
    else if e = ch 'b' then some ([0x08], rest)
    else if e = ch 'f' then some ([0x0C], rest)
    else if e = ch 'n' then some ([0x0A], rest)
    else if e = ch 'r' then some ([0x0D], rest)
    else if e = ch 't' then some ([0x09], rest)
    else if e = ch 'u' then
      match readHex4 rest with
      | none => none
      | some (r, rest1) =>
        if 0xD800 ≤ r ∧ r < 0xDC00 then
          match rest1 with
          | b1 :: u1 :: rest2 =>
            if b1 = 0x5C ∧ u1 = ch 'u' then
              match readHex4 rest2 with
              | none => none
              | some (r2, rest3) =>
                if 0xDC00 ≤ r2 ∧ r2 < 0xE000 then
                  some (utf8Encode (0x10000 + (r - 0xD800) * 1024 + (r2 - 0xDC00)), rest3)
                else none
            else none
          | _ => none
        else if 0xDC00 ≤ r ∧ r < 0xE000 then none
        else some (utf8Encode r, rest1)
    else none

/-- The characters of a JSON string after its opening quote, up to the closing
quote: the bytes of the string and the rest of the text. -/
def readStringBody : Nat → GoString → Option (GoString × GoString)
  | 0, _ => none
  | _ + 1, [] => none
  | fuel + 1, c :: rest =>
    if c = 0x22 then some ([], rest)
    else if c = 0x5C then
      match readEscape rest with
      | none => none
      | some (bytes, rest1) =>
        match readStringBody fuel rest1 with
        | none => none
        | some (t, rest2) => some (bytes ++ t, rest2)
    else if c.val < 0x20 then none
    else
      match readStringBody fuel rest with
      | none => none
      | some (t, rest1) => some (c :: t, rest1)

/-- A JSON string: its bytes and the rest of the text. -/
def readString (s : GoString) : Option (GoString × GoString) :=
  match s with
  | [] => none
  | c :: rest => if c = 0x22 then readStringBody s.length rest else none

/-- The text without its leading white space. -/
def skipSpace : GoString → GoString
  | [] => []
  | c :: rest =>
    if c = 0x20 ∨ c = 0x09 ∨ c = 0x0A ∨ c = 0x0D then skipSpace rest else c :: rest

/-- The elements of an array after the first, each after a comma, up to the
closing bracket. -/
def readElements : Nat → GoString → Option (List GoString × GoString)
  | 0, _ => none
  | fuel + 1, s =>
    match skipSpace s with
    | [] => none
    | c :: rest =>
      if c = ch ']' then some ([], rest)
      else if c = ch ',' then
        match readString (skipSpace rest) with
        | none => none
        | some (x, rest1) =>
          match readElements fuel rest1 with
          | none => none
          | some (xs, rest2) => some (x :: xs, rest2)
      else none

/-- The strings of a JSON text that is an array of strings; `none` for any
other text. -/
def decodeStringArray (s : GoString) : Option (List GoString) :=
  match skipSpace s with
  | [] => none
  | c :: rest =>
    if c = ch '[' then
      match skipSpace rest with
      | [] => none
      | c1 :: rest1 =>
        if c1 = ch ']' then (if skipSpace rest1 = [] then some [] else none)
        else
          match readString (c1 :: rest1) with
          | none => none
          | some (x, rest2) =>
            match readElements s.length rest2 with
            | none => none
            | some (xs, rest3) => if skipSpace rest3 = [] then some (x :: xs) else none
    else none

/-- The loop of `coerceUTF8` on the rest of the string; `fuel` bounds the
number of iterations. -/
def coerceLoop : Nat → GoString → GoString
  | 0, _ => []
  | _ + 1, [] => []
  | fuel + 1, b :: rest =>
    if b.val < 0x80 then b :: coerceLoop fuel rest
    else
      let (c, size) := DecodeRuneInString (b :: rest)
      if c = RuneError ∧ size = 1 then [0xEF, 0xBF, 0xBD] ++ coerceLoop fuel rest
      else (b :: rest).take size ++ coerceLoop fuel ((b :: rest).drop size)

/-- The string coerced to valid UTF-8: every byte that does not begin a valid
UTF-8 sequence is replaced by the three bytes of U+FFFD, every valid sequence
is kept. -/
def coerceUTF8 (s : GoString) : GoString := coerceLoop s.length s

/-- The text `esc` reads as the bytes `raw` inside a JSON string: whatever
the text after it reads as, the text with `esc` in front reads as `raw` followed
by that. -/
def ReadsAs (esc raw : GoString) : Prop :=
  ∀ (F : Nat) (t tail r : GoString), readStringBody F tail = some (t, r) →
    readStringBody (F + esc.length) (esc ++ tail) = some (raw ++ t, r)

/-! ## Sample environments -/

/-- Whether a JSON value can begin with the byte: an object, an array, a
string, a number or one of the literals `true`, `false`, `null`. -/
def beginsValue (c : GoByte) : Bool :=
  c == 0x7B || c == ch '[' || c == 0x22 || c == ch '-' || (ch '0' ≤ c && c ≤ ch '9')
    || c == ch 't' || c == ch 'f' || c == ch 'n'

/-- A scanner for the sample environments: an empty body is `EOF`, a body whose
first byte cannot begin a JSON value is a syntax error, any other body is
taken as one value. -/
def sampleReadValue : GoString → Except GoError GoString
  | [] => .error { msg := "EOF" }
  | c :: rest =>
    if beginsValue c then .ok (c :: rest)
    else .error { msg := "invalid character looking for beginning of value" }

/-- A service that answers every request with the given status and body. -/
def serverWorld (status : Int) (body : GoString) : World :=
  { jsonEncoder := Encoder.legacy,
    httpGet := fun _ => .ok { StatusCode := status, Body := body },
    httpPost := fun _ _ _ => .ok { StatusCode := status, Body := body },
    readValue := sampleReadValue,
    unmarshalScanResult := fun _ v => (v, some { msg := "json: cannot unmarshal" }),
    unmarshalSummaries := fun _ v => (v, some { msg := "json: cannot unmarshal" }) }

/-- The error of `http.Get` for a service that cannot be reached; as the
errors of `net/http` do, it names the URL of the request. -/
def dialError (url : GoString) : GoError :=
  { msg := "Get " ++ String.mk (url.map (fun b => Char.ofNat b.val))
      ++ ": dial tcp: connection refused" }

/-- A service that cannot be reached: every transport call fails, with an
error that names its URL. -/
def downWorld : World :=
  { jsonEncoder := Encoder.legacy,
    httpGet := fun url => .error (dialError url),
    httpPost := fun url _ _ => .error (dialError url),
    readValue := sampleReadValue,
    unmarshalScanResult := fun _ v => (v, none),
    unmarshalSummaries := fun _ v => (v, none) }

/-! ## Theorems -/

theorem shouldEscape_space : shouldEscape (ch ' ') = true := by decide

theorem foldl_countStep (s : GoString) (acc : Nat × Nat) :
    s.foldl countStep acc = (acc.1 + spaceBytes s, acc.2 + hexBytes s) := by
  induction s generalizing acc with
  | nil => simp [spaceBytes, hexBytes]
  | cons c rest ih =>
    rw [List.foldl_cons, ih]
    by_cases hsp : c = ch ' '
    · subst hsp
      simp [countStep, shouldEscape_space, spaceBytes, hexBytes]
      omega
    · by_cases hesc : shouldEscape c = true
      · simp [countStep, hesc, hsp, spaceBytes, hexBytes]
        omega
      · simp [countStep, hesc, hsp, spaceBytes, hexBytes]

theorem countEscapes_eq (s : GoString) : countEscapes s = (spaceBytes s, hexBytes s) := by
  simp [countEscapes, foldl_countStep]

theorem length_flatMap_escapeByte (s : GoString) :
    (s.flatMap escapeByte).length = s.length + 2 * hexBytes s := by
  induction s with
  | nil => simp [hexBytes]
  | cons c rest ih =>
    rw [List.flatMap_cons, List.length_append, ih]
    by_cases hsp : c = ch ' '
    · simp [escapeByte, hsp, hexBytes]
      omega
    · by_cases hesc : shouldEscape c = true
      · simp [escapeByte, hesc, hsp, hexBytes]
        omega
      · simp [escapeByte, hesc, hsp, hexBytes]
        omega

theorem set_length_append {α : Type} (pre : List α) (x y : α) (tl : List α) :
    (pre ++ y :: tl).set pre.length x = (pre ++ [x]) ++ tl := by
  induction pre with
  | nil => simp
  | cons a pre ih => simp

theorem escapeLoop_eq (s : GoString) (pre : List GoByte) (k : Nat)
    (hk : (s.flatMap escapeByte).length ≤ k) :
    escapeLoop s (pre ++ List.replicate k 0) pre.length
      = pre ++ s.flatMap escapeByte
          ++ List.replicate (k - (s.flatMap escapeByte).length) 0 := by
  induction s generalizing pre k with
  | nil => simp [escapeLoop]
  | cons c rest ih =>
    rw [List.flatMap_cons, List.length_append] at hk
    rw [List.flatMap_cons]
    by_cases hsp : c = ch ' '
    · have h1 : (escapeByte c) = [ch '+'] := by simp [escapeByte, hsp]
      rw [h1] at hk ⊢
      simp only [List.length_cons, List.length_nil] at hk
      obtain ⟨k1, rfl⟩ : ∃ k1, k = k1 + 1 := ⟨k - 1, by omega⟩
      have := ih (pre ++ [ch '+']) k1 (by omega)
      simp only [List.length_append, List.length_singleton] at this
      simp only [escapeLoop, hsp, if_true, List.replicate_succ, set_length_append]
      rw [this]
      simp
    · by_cases hesc : shouldEscape c = true
      · have h1 : (escapeByte c) = [ch '%', upperhexAt (c >>> 4), upperhexAt (c &&& 15)] := by
          simp [escapeByte, hsp, hesc]
        rw [h1] at hk ⊢
        simp only [List.length_cons, List.length_nil] at hk
        obtain ⟨k1, rfl⟩ : ∃ k1, k = k1 + 3 := ⟨k - 3, by omega⟩
        have := ih (pre ++ [ch '%', upperhexAt (c >>> 4), upperhexAt (c &&& 15)]) k1
          (by omega)
        simp only [escapeLoop, hsp, hesc, if_true, if_false, List.replicate_succ]
        rw [set_length_append]
        have e1 : pre.length + 1 = (pre ++ [ch '%']).length := by simp
        rw [e1, set_length_append]
        have e2 : pre.length + 2 = (pre ++ [ch '%'] ++ [upperhexAt (c >>> 4)]).length := by simp
        rw [e2, set_length_append]
        have e3 : pre.length + 3
            = (pre ++ [ch '%', upperhexAt (c >>> 4), upperhexAt (c &&& 15)]).length := by simp
        rw [e3]
        have e4 : pre ++ [ch '%'] ++ [upperhexAt (c >>> 4)] ++ [upperhexAt (c &&& 15)]
            = pre ++ [ch '%', upperhexAt (c >>> 4), upperhexAt (c &&& 15)] := by simp
        rw [e4, this]
        simp
      · have h1 : (escapeByte c) = [c] := by simp [escapeByte, hsp, hesc]
        rw [h1] at hk ⊢
        simp only [List.length_cons, List.length_nil] at hk
        obtain ⟨k1, rfl⟩ : ∃ k1, k = k1 + 1 := ⟨k - 1, by omega⟩
        have := ih (pre ++ [c]) k1 (by omega)
        simp only [List.length_append, List.length_singleton] at this
        simp only [escapeLoop, hsp, hesc, if_false, List.replicate_succ, set_length_append]
        rw [this]
        simp

theorem flatMap_escapeByte_of_no_hex (s : GoString) (h : hexBytes s = 0) :
    s.flatMap escapeByte = s.map (fun c => if c = ch ' ' then ch '+' else c) := by
  induction s with
  | nil => rfl
  | cons c rest ih =>
    by_cases hsp : c = ch ' '
    · have hr : hexBytes rest = 0 := by
        simpa [hexBytes, hsp] using h
      simp [List.flatMap_cons, escapeByte, hsp, ih hr]
    · by_cases hesc : shouldEscape c = true
      · simp [hexBytes, hsp, hesc] at h
      · have hr : hexBytes rest = 0 := by
          simpa [hexBytes, hsp, hesc] using h
        simp [List.flatMap_cons, escapeByte, hsp, hesc, ih hr]

theorem map_plus_of_no_space (s : GoString) (h : spaceBytes s = 0) :
    s.map (fun c => if c = ch ' ' then ch '+' else c) = s := by
  induction s with
  | nil => rfl
  | cons c rest ih =>
    by_cases hsp : c = ch ' '
    · simp [spaceBytes, hsp] at h
    · have hr : spaceBytes rest = 0 := by simpa [spaceBytes, hsp] using h
      simp [hsp, ih hr]

/-- The function `url.QueryEscape` rewrites its input byte by byte. -/
theorem QueryEscape_eq_flatMap (s : GoString) : QueryEscape s = s.flatMap escapeByte := by
  unfold QueryEscape escape
  rw [countEscapes_eq]
  simp only
  by_cases h0 : spaceBytes s = 0 ∧ hexBytes s = 0
  · rw [if_pos h0, flatMap_escapeByte_of_no_hex s h0.2, map_plus_of_no_space s h0.1]
  · rw [if_neg h0]
    by_cases hh : hexBytes s = 0
    · rw [if_pos hh, flatMap_escapeByte_of_no_hex s hh]
    · rw [if_neg hh]
      have := escapeLoop_eq s [] (s.length + 2 * hexBytes s)
        (by rw [length_flatMap_escapeByte])
      simp only [List.nil_append, List.length_nil] at this
      rw [this, length_flatMap_escapeByte]
      simp

/-! ### The URL of `GetAll` -/

theorem foldl_images (images : List GoString) (acc : GoString) :
    images.foldl (fun getURL image => getURL ++ str "&images=" ++ QueryEscape image) acc
      = acc ++ imagesQuery images := by
  induction images generalizing acc with
  | nil => simp [imagesQuery]
  | cons image rest ih =>
    rw [List.foldl_cons, ih]
    simp [imagesQuery, List.flatMap_cons, List.append_assoc]

theorem GetAll_getURL_eq (s : Scanner) (images : Slice GoString) :
    GetAll_getURL s images
      = s.ScannerURL ++ str "/scan-results/trivy?" ++ imagesQuery images.elems := by
  unfold GetAll_getURL
  rw [foldl_images]

theorem length_GetAll_getURL (s : Scanner) (images : Slice GoString) :
    20 ≤ (GetAll_getURL s images).length := by
  rw [GetAll_getURL_eq]
  have h : (str "/scan-results/trivy?").length = 20 := by decide
  simp only [List.length_append, h]
  omega

theorem sliceTo_length_sub_one (l : GoString) (h : 0 < l.length) :
    sliceTo l ((l.length : Int) - 1) = some l.dropLast := by
  unfold sliceTo
  have h1 : (0 : Int) ≤ (l.length : Int) - 1 ∧ (l.length : Int) - 1 ≤ (l.length : Int) := by
    omega
  rw [if_pos h1]
  have h2 : ((l.length : Int) - 1).toNat = l.length - 1 := by omega
  rw [h2, List.dropLast_eq_take]

theorem GetAll_scanRequestsURL_eq (s : Scanner) (images : Slice GoString) :
    GetAll_scanRequestsURL s images = some (GetAll_getURL s images).dropLast := by
  unfold GetAll_scanRequestsURL
  have := length_GetAll_getURL s images
  exact sliceTo_length_sub_one _ (by omega)

theorem GetAll_requests (w : World) (s : Scanner) (images : Slice GoString) :
    ∃ o, GetAll w s images = some o
      ∧ httpRequests o.trace = [Event.httpGet (GetAll_getURL s images).dropLast] := by
  unfold GetAll
  rw [GetAll_scanRequestsURL_eq]
  simp only
  cases w.httpGet (GetAll_getURL s images).dropLast with
  | error e => exact ⟨_, rfl, rfl⟩
  | ok resp => exact ⟨_, rfl, rfl⟩

/-! ### Claims on the URL of `GetAll` -/

/-- C10: for every base URL and every image list, the URL that `GetAll` builds
has at least 20 bytes, so the slice expression `getURL[:len(getURL)-1]` is in
bounds: `GetAll` does not panic, and the URL it requests is one byte shorter
than the URL it built. -/
theorem GetAll_slice_in_bounds (w : World) (s : Scanner) (images : Slice GoString) :
    20 ≤ (GetAll_getURL s images).length
      ∧ (sliceTo (GetAll_getURL s images) (((GetAll_getURL s images).length : Int) - 1)).isSome
      ∧ ∃ o u, GetAll w s images = some o
          ∧ httpRequests o.trace = [Event.httpGet u]
          ∧ GetAll_scanRequestsURL s images = some u
          ∧ u.length = (GetAll_getURL s images).length - 1 := by
  have hlen := length_GetAll_getURL s images
  refine ⟨hlen, ?_, ?_⟩
  · rw [sliceTo_length_sub_one _ (by omega)]
    rfl
  · obtain ⟨o, ho, hreq⟩ := GetAll_requests w s images
    exact ⟨o, _, ho, hreq, GetAll_scanRequestsURL_eq s images, by simp⟩

/-- C9 as stated fails: with an empty image list and the base URL
`http://scanner`, `GetAll` requests `http://scanner/scan-results/trivy`, which
is not the base URL followed by `/scan-results/trivy?`. -/
theorem GetAll_empty_has_no_question_mark :
    (GetAll (serverWorld 200 []) (NewScanner (str "http://scanner")) (some [])).map
        (fun o => httpRequests o.trace)
      = some [Event.httpGet (str "http://scanner/scan-results/trivy")]
    ∧ str "http://scanner/scan-results/trivy"
      ≠ str "http://scanner" ++ str "/scan-results/trivy?" := by
  decide

/-- C9, amended: for every base URL, `GetAll` called with an empty image list
(the nil slice or an empty slice) issues exactly one request, a GET to the
base URL followed by `/scan-results/trivy`: the truncation removes the `?`, so
the requested URL is the built URL `B/scan-results/trivy?` without its `?`. -/
theorem GetAll_empty_url (w : World) (s : Scanner) :
    (∃ o, GetAll w s none = some o
        ∧ httpRequests o.trace = [Event.httpGet (s.ScannerURL ++ str "/scan-results/trivy")])
    ∧ (∃ o, GetAll w s (some []) = some o
        ∧ httpRequests o.trace = [Event.httpGet (s.ScannerURL ++ str "/scan-results/trivy")])
    ∧ GetAll_getURL s none = s.ScannerURL ++ str "/scan-results/trivy" ++ [ch '?']
    ∧ GetAll_getURL s (some []) = s.ScannerURL ++ str "/scan-results/trivy" ++ [ch '?'] := by
  have hsplit : str "/scan-results/trivy?" = str "/scan-results/trivy" ++ [ch '?'] := by decide
  have hurl : ∀ images : Slice GoString, images.elems = [] →
      GetAll_getURL s images = s.ScannerURL ++ str "/scan-results/trivy" ++ [ch '?'] := by
    intro images h
    rw [GetAll_getURL_eq, h, hsplit]
    simp [imagesQuery]
  have hreq : ∀ images : Slice GoString, images.elems = [] →
      ∃ o, GetAll w s images = some o
        ∧ httpRequests o.trace
            = [Event.httpGet (s.ScannerURL ++ str "/scan-results/trivy")] := by
    intro images h
    obtain ⟨o, ho, hr⟩ := GetAll_requests w s images
    refine ⟨o, ho, ?_⟩
    rw [hr, hurl images h, List.dropLast_concat]
  exact ⟨hreq none rfl, hreq (some []) rfl, hurl none rfl, hurl (some []) rfl⟩

/-- C1 fails on the code: for the image list `["nginx:latest"]` the URL built
is `http://scanner/scan-results/trivy?&images=nginx%3Alatest`, the character
removed from it is the final `t` of the encoded image, and the URL requested
ends in `nginx%3Alates`. -/
theorem GetAll_truncates_last_image :
    GetAll_getURL (NewScanner (str "http://scanner")) (some [str "nginx:latest"])
      = str "http://scanner/scan-results/trivy?&images=nginx%3Alates" ++ [ch 't']
    ∧ (GetAll (serverWorld 200 []) (NewScanner (str "http://scanner"))
          (some [str "nginx:latest"])).map (fun o => httpRequests o.trace)
      = some [Event.httpGet (str "http://scanner/scan-results/trivy?&images=nginx%3Alates")]
    ∧ ¬ (str "nginx%3Alatest" <:+ str "http://scanner/scan-results/trivy?&images=nginx%3Alates")
    ∧ ch 't' ≠ ch '&' ∧ ch 't' ≠ ch '?' := by
  decide

/-- C2 as stated fails: for the base URL `http://scanner` and the image list
`["nginx:latest", "alpine:3.18"]` the request goes to
`http://scanner/scan-results/trivy?&images=nginx%3Alatest&images=alpine%3A3.1`,
where the `?` is followed by `&`, and not to the URL the claim gives. -/
theorem GetAll_url_not_as_tabled :
    (GetAll (serverWorld 200 []) (NewScanner (str "http://scanner"))
          (some [str "nginx:latest", str "alpine:3.18"])).map (fun o => httpRequests o.trace)
      = some [Event.httpGet
          (str "http://scanner/scan-results/trivy?&images=nginx%3Alatest&images=alpine%3A3.1")]
    ∧ str "http://scanner/scan-results/trivy?&images=nginx%3Alatest&images=alpine%3A3.1"
      ≠ str "http://scanner" ++ str "/scan-results/trivy?images="
          ++ QueryEscape (str "nginx:latest") ++ str "&images="
          ++ QueryEscape (str "alpine:3.18")
    ∧ ¬ (str "http://scanner" ++ str "/scan-results/trivy?images=")
          <+: str "http://scanner/scan-results/trivy?&images=nginx%3Alatest&images=alpine%3A3.1" := by
  decide

/-- C2, amended: for every base URL `B` and every non-empty image list
`[i1, ..., in]`, the URL that `GetAll` builds is exactly
`B + "/scan-results/trivy?" + "&images=" + enc(i1) + ... + "&images=" + enc(in)`
with `enc` being `url.QueryEscape`: every parameter, the first included, has a
leading `&`, and the parameters are in list order.  `GetAll` issues exactly one
request, a GET to a prefix of that URL which holds everything up to and
including the `&images` of the last parameter. -/
theorem GetAll_url_shape (w : World) (s : Scanner) (init : List GoString)
    (last : GoString) :
    GetAll_getURL s (some (init ++ [last]))
      = s.ScannerURL ++ str "/scan-results/trivy?"
          ++ (init ++ [last]).flatMap (fun image => str "&images=" ++ QueryEscape image)
    ∧ ∃ o u, GetAll w s (some (init ++ [last])) = some o
        ∧ httpRequests o.trace = [Event.httpGet u]
        ∧ u <+: GetAll_getURL s (some (init ++ [last]))
        ∧ (s.ScannerURL ++ str "/scan-results/trivy?"
            ++ init.flatMap (fun image => str "&images=" ++ QueryEscape image)
            ++ str "&images") <+: u := by
  have hurl := GetAll_getURL_eq s (some (init ++ [last]))
  refine ⟨hurl, ?_⟩
  obtain ⟨o, ho, hreq⟩ := GetAll_requests w s (some (init ++ [last]))
  refine ⟨o, _, ho, hreq, List.dropLast_prefix _, ?_⟩
  have hsplit : str "&images=" = str "&images" ++ [ch '='] := by decide
  have hq : imagesQuery (init ++ [last])
      = init.flatMap (fun image => str "&images=" ++ QueryEscape image)
          ++ str "&images" ++ ([ch '='] ++ QueryEscape last) := by
    simp [imagesQuery, List.flatMap_append, hsplit, List.append_assoc]
  rw [hurl]
  simp only [Slice.elems]
  rw [hq]
  have hne : ([ch '='] ++ QueryEscape last) ≠ [] := by simp
  have hassoc : s.ScannerURL ++ str "/scan-results/trivy?"
        ++ (init.flatMap (fun image => str "&images=" ++ QueryEscape image)
          ++ str "&images" ++ ([ch '='] ++ QueryEscape last))
      = (s.ScannerURL ++ str "/scan-results/trivy?"
          ++ init.flatMap (fun image => str "&images=" ++ QueryEscape image)
          ++ str "&images") ++ ([ch '='] ++ QueryEscape last) := by
    simp only [List.append_assoc]
  rw [hassoc, List.dropLast_append_of_ne_nil _ hne]
  exact List.prefix_append _ _

/-! ### The character that `GetAll` removes -/

set_option maxRecDepth 100000 in
theorem separator_not_mem_escapeByte (c : GoByte) :
    ch '&' ∉ escapeByte c ∧ ch '?' ∉ escapeByte c := by
  revert c
  decide

/-- For every base URL and every non-empty image list, the character that
`GetAll` removes from the URL it built is neither `&` nor `?`: it is the last
byte of the escaped last image, or the `=` before it when that image is the
empty string. -/
theorem GetAll_removes_no_separator (s : Scanner) (init : List GoString) (last : GoString) :
    ∃ u x, GetAll_getURL s (some (init ++ [last])) = u ++ [x]
      ∧ GetAll_scanRequestsURL s (some (init ++ [last])) = some u
      ∧ x ≠ ch '&' ∧ x ≠ ch '?'
      ∧ (x = ch '=' ∨ x ∈ QueryEscape last) := by
  have hsplit : str "&images=" = str "&images" ++ [ch '='] := by decide
  have hne : ([ch '='] ++ QueryEscape last) ≠ [] := by simp
  have hurl : GetAll_getURL s (some (init ++ [last]))
      = (s.ScannerURL ++ str "/scan-results/trivy?" ++ imagesQuery init ++ str "&images")
          ++ ([ch '='] ++ QueryEscape last) := by
    rw [GetAll_getURL_eq]
    simp [Slice.elems, imagesQuery, List.flatMap_append, hsplit, List.append_assoc]
  have hfull : GetAll_getURL s (some (init ++ [last])) ≠ [] := by
    rw [hurl]
    simp
  have hlast : (GetAll_getURL s (some (init ++ [last]))).getLast hfull
      = ([ch '='] ++ QueryEscape last).getLast hne := by
    simp only [hurl]
    exact List.getLast_append_right hne
  have hmem := List.getLast_mem hne
  rw [← hlast] at hmem
  have hx : (GetAll_getURL s (some (init ++ [last]))).getLast hfull = ch '='
      ∨ (GetAll_getURL s (some (init ++ [last]))).getLast hfull ∈ QueryEscape last := by
    simpa using hmem
  refine ⟨_, _, (List.dropLast_append_getLast hfull).symm, GetAll_scanRequestsURL_eq s _,
    ?_, ?_, hx⟩
  · rcases hx with h | h
    · rw [h]
      decide
    · intro heq
      rw [heq, QueryEscape_eq_flatMap, List.mem_flatMap] at h
      obtain ⟨c, _, hc⟩ := h
      exact (separator_not_mem_escapeByte c).1 hc
  · rcases hx with h | h
    · rw [h]
      decide
    · intro heq
      rw [heq, QueryEscape_eq_flatMap, List.mem_flatMap] at h
      obtain ⟨c, _, hc⟩ := h
      exact (separator_not_mem_escapeByte c).2 hc

/-! ### Claims on the URL of `Get` -/

theorem Get_requests (w : World) (s : Scanner) (image : GoString) :
    httpRequests (Get w s image).trace = [Event.httpGet (Get_scanResultURL s image)] := by
  unfold Get
  simp only
  cases w.httpGet (Get_scanResultURL s image) with
  | error e => rfl
  | ok resp => rfl

set_option maxRecDepth 100000 in
theorem escapeByte_eq_percentEncodeByte (c : GoByte) :
    escapeByte c = if c = ch ' ' then [ch '+'] else percentEncodeByte c := by
  revert c
  decide

set_option maxRecDepth 100000 in
theorem slash_colon_not_mem_escapeByte (c : GoByte) :
    ch '/' ∉ escapeByte c ∧ ch ':' ∉ escapeByte c := by
  revert c
  decide

theorem QueryEscape_eq_percentEncodePlus (s : GoString) :
    QueryEscape s = percentEncodePlus s := by
  rw [QueryEscape_eq_flatMap]
  unfold percentEncodePlus
  congr 1
  funext c
  exact escapeByte_eq_percentEncodeByte c

theorem QueryEscape_append (a b : GoString) :
    QueryEscape (a ++ b) = QueryEscape a ++ QueryEscape b := by
  simp only [QueryEscape_eq_flatMap, List.flatMap_append]

theorem QueryEscape_cons (c : GoByte) (s : GoString) :
    QueryEscape (c :: s) = escapeByte c ++ QueryEscape s := by
  simp only [QueryEscape_eq_flatMap, List.flatMap_cons]

/-- C3 as stated fails: for the image string `a b` the request of `Get` goes
to `http://scanner/scan-results/trivy/a+b`, while the percent-encoded form of
`a b` is `a%20b`. -/
theorem Get_space_is_plus :
    httpRequests (Get (serverWorld 200 []) (NewScanner (str "http://scanner")) (str "a b")).trace
      = [Event.httpGet (str "http://scanner/scan-results/trivy/a+b")]
    ∧ percentEncode (str "a b") = str "a%20b"
    ∧ str "http://scanner/scan-results/trivy/a+b"
      ≠ str "http://scanner" ++ str "/scan-results/trivy/" ++ percentEncode (str "a b") := by
  decide

/-- C3, amended: for every base URL `B` and every image string `S`, `Get`
issues exactly one request, a GET to `B + "/scan-results/trivy/" + E`, where
`E` is `S` rewritten byte by byte: an unreserved character (letter, digit,
`-`, `_`, `.`, `~`) is copied unchanged, a space becomes `+`, and every other
byte becomes `%` followed by its two upper-case hex digits. -/
theorem Get_url_percent_encoded (w : World) (s : Scanner) (S : GoString) :
    httpRequests (Get w s S).trace
      = [Event.httpGet (s.ScannerURL ++ str "/scan-results/trivy/"
          ++ S.flatMap (fun c => if c = ch ' ' then [ch '+'] else percentEncodeByte c))] := by
  rw [Get_requests]
  unfold Get_scanResultURL
  rw [QueryEscape_eq_percentEncodePlus]
  rfl

/-- C4: for every image string `S`, `Get` requests the base URL followed by
`/scan-results/trivy/` and a segment, the escaped `S`, that holds no `/` and no
`:`; a `/` of `S` is written as `%2F` and a `:` as `%3A`, between the escaped
text before it and the escaped text after it; for `my/repo:tag` the URL is
`B/scan-results/trivy/my%2Frepo%3Atag`. -/
theorem Get_escapes_slash_and_colon (w : World) (s : Scanner) (S pre post : GoString) :
    httpRequests (Get w s S).trace
      = [Event.httpGet (s.ScannerURL ++ str "/scan-results/trivy/" ++ QueryEscape S)]
    ∧ ch '/' ∉ QueryEscape S
    ∧ ch ':' ∉ QueryEscape S
    ∧ QueryEscape (pre ++ ch '/' :: post) = QueryEscape pre ++ str "%2F" ++ QueryEscape post
    ∧ QueryEscape (pre ++ ch ':' :: post) = QueryEscape pre ++ str "%3A" ++ QueryEscape post
    ∧ httpRequests (Get w s (str "my/repo:tag")).trace
      = [Event.httpGet (s.ScannerURL ++ str "/scan-results/trivy/my%2Frepo%3Atag")] := by
  have hmem : ∀ b : GoByte, (b = ch '/' ∨ b = ch ':') → b ∉ QueryEscape S := by
    intro b hb hin
    rw [QueryEscape_eq_flatMap, List.mem_flatMap] at hin
    obtain ⟨c, _, hc⟩ := hin
    have := slash_colon_not_mem_escapeByte c
    rcases hb with rfl | rfl
    · exact this.1 hc
    · exact this.2 hc
  have h2F : escapeByte (ch '/') = str "%2F" := by decide
  have h3A : escapeByte (ch ':') = str "%3A" := by decide
  have hex : QueryEscape (str "my/repo:tag") = str "my%2Frepo%3Atag" := by decide
  have hcat : str "/scan-results/trivy/" ++ str "my%2Frepo%3Atag"
      = str "/scan-results/trivy/my%2Frepo%3Atag" := by decide
  refine ⟨Get_requests w s S, hmem _ (Or.inl rfl), hmem _ (Or.inr rfl), ?_, ?_, ?_⟩
  · rw [QueryEscape_append, QueryEscape_cons, h2F, List.append_assoc]
  · rw [QueryEscape_append, QueryEscape_cons, h3A, List.append_assoc]
  · rw [Get_requests]
    unfold Get_scanResultURL
    rw [hex, List.append_assoc, hcat]

/-! ### Claims on what `Get` and `GetAll` return -/

/-- C6: when the transport call of `Get` fails with the error `e`, `Get`
returns the zero-value `ImageScanResult` together with `e`; when the transport
call of `GetAll` fails with the error `e`, `GetAll` returns the nil slice
together with `e`; in both cases nothing is handed to the JSON decoder, and the
call only issues the request and logs the error. -/
theorem transport_failure_is_returned (w : World) (s : Scanner) (image : GoString)
    (images : Slice GoString) :
    (∀ e : GoError, w.httpGet (Get_scanResultURL s image) = .error e →
      Get w s image
          = { trace := [Event.httpGet (Get_scanResultURL s image),
                Event.logErrorf "Error requesting image scan result %v" e],
              value := ImageScanResult.zero,
              err := some e }
        ∧ decodedBodies (Get w s image).trace = [])
    ∧ ∃ url, GetAll_scanRequestsURL s images = some url
        ∧ ∀ e : GoError, w.httpGet url = .error e →
          GetAll w s images
              = some { trace := [Event.httpGet url,
                         Event.logErrorf "Error requesting images scan results %v" e],
                       value := none,
                       err := some e }
            ∧ (GetAll w s images).map (fun o => decodedBodies o.trace) = some [] := by
  constructor
  · intro e hGet
    have h1 : Get w s image
          = { trace := [Event.httpGet (Get_scanResultURL s image),
                Event.logErrorf "Error requesting image scan result %v" e],
              value := ImageScanResult.zero,
              err := some e } := by
      unfold Get
      simp only [hGet]
    refine ⟨h1, ?_⟩
    rw [h1]
    rfl
  · refine ⟨_, GetAll_scanRequestsURL_eq s images, ?_⟩
    intro e hAll
    have h2 : GetAll w s images
          = some { trace := [Event.httpGet (GetAll_getURL s images).dropLast,
                     Event.logErrorf "Error requesting images scan results %v" e],
                   value := none,
                   err := some e } := by
      unfold GetAll
      simp only [GetAll_scanRequestsURL_eq, hAll]
    refine ⟨h2, ?_⟩
    rw [h2]
    rfl

/-- C6 at a concrete input: the service is down, and `Get("alpine:3.18")` and
`GetAll(["nginx:latest"])` each return the error of their own transport call,
which names the URL requested. -/
theorem transport_failure_is_returned_witness :
    Get downWorld (NewScanner (str "http://scanner")) (str "alpine:3.18")
      = { trace := [Event.httpGet (str "http://scanner/scan-results/trivy/alpine%3A3.18"),
            Event.logErrorf "Error requesting image scan result %v"
              (dialError (str "http://scanner/scan-results/trivy/alpine%3A3.18"))],
          value := ImageScanResult.zero,
          err := some (dialError (str "http://scanner/scan-results/trivy/alpine%3A3.18")) }
    ∧ GetAll downWorld (NewScanner (str "http://scanner")) (some [str "nginx:latest"])
      = some { trace := [Event.httpGet
                   (str "http://scanner/scan-results/trivy?&images=nginx%3Alates"),
                 Event.logErrorf "Error requesting images scan results %v"
                   (dialError (str "http://scanner/scan-results/trivy?&images=nginx%3Alates"))],
               value := none,
               err := some
                 (dialError (str "http://scanner/scan-results/trivy?&images=nginx%3Alates")) }
    ∧ dialError (str "http://scanner/scan-results/trivy/alpine%3A3.18")
      ≠ dialError (str "http://scanner/scan-results/trivy?&images=nginx%3Alates") := by
  have h := transport_failure_is_returned downWorld (NewScanner (str "http://scanner"))
    (str "alpine:3.18") (some [str "nginx:latest"])
  have hu1 : Get_scanResultURL (NewScanner (str "http://scanner")) (str "alpine:3.18")
      = str "http://scanner/scan-results/trivy/alpine%3A3.18" := by decide
  have hu2 : GetAll_scanRequestsURL (NewScanner (str "http://scanner"))
      (some [str "nginx:latest"])
      = some (str "http://scanner/scan-results/trivy?&images=nginx%3Alates") := by decide
  refine ⟨?_, ?_, by decide⟩
  · have h1 := (h.1 (dialError
      (Get_scanResultURL (NewScanner (str "http://scanner")) (str "alpine:3.18"))) rfl).1
    rw [hu1] at h1
    exact h1
  · obtain ⟨url, hurl, h2⟩ := h.2
    rw [hu2] at hurl
    cases hurl
    exact (h2 _ rfl).1

/-- C7 as stated fails: the service answers `Get("alpine:3.18")` with status
500 and an empty body, and `Get` returns the nil error. -/
theorem Get_status_500_returns_nil_error :
    (serverWorld 500 []).httpGet
        (Get_scanResultURL (NewScanner (str "http://scanner")) (str "alpine:3.18"))
      = .ok { StatusCode := 500, Body := [] }
    ∧ Get (serverWorld 500 []) (NewScanner (str "http://scanner")) (str "alpine:3.18")
      = { trace := [Event.httpGet (str "http://scanner/scan-results/trivy/alpine%3A3.18"),
            Event.decode [], Event.logPrint, Event.bodyClose],
          value := ImageScanResult.zero,
          err := none } := by
  exact ⟨rfl, by decide⟩

/-- C7, amended: for every response body, when the server answers `Get` with
HTTP status 500, `Get` returns the nil error, and the value it returns is what
decoding the body into a zero-value `ImageScanResult` leaves; the status code
of the response is not read. -/
theorem Get_ignores_status (w : World) (s : Scanner) (image : GoString) (resp : Response)
    (hresp : w.httpGet (Get_scanResultURL s image) = .ok resp)
    (hstatus : resp.StatusCode = 500) :
    (Get w s image).err = none
    ∧ (Get w s image).value
        = (Decode w w.unmarshalScanResult resp.Body ImageScanResult.zero).1
    ∧ ∀ status : Int, ∀ w2 : World,
        w2.httpGet (Get_scanResultURL s image) = .ok { resp with StatusCode := status } →
        w2.readValue = w.readValue → w2.unmarshalScanResult = w.unmarshalScanResult →
        Get w2 s image = Get w s image := by
  have _ := hstatus
  have h1 : Get w s image
      = { trace := [Event.httpGet (Get_scanResultURL s image), Event.decode resp.Body,
            Event.logPrint, Event.bodyClose],
          value := (Decode w w.unmarshalScanResult resp.Body ImageScanResult.zero).1,
          err := none } := by
    unfold Get
    simp only [hresp]
  refine ⟨by rw [h1], by rw [h1], ?_⟩
  intro status w2 h2 hr hu
  rw [h1]
  unfold Get
  simp only [h2]
  unfold Decode
  rw [hr, hu]

/-- C7, amended, at a concrete input: status 500 with a body that is not JSON. -/
theorem Get_ignores_status_witness :
    (Get (serverWorld 500 (str "Internal Server Error")) (NewScanner (str "http://scanner"))
        (str "alpine:3.18")).err = none
    ∧ (Get (serverWorld 500 (str "Internal Server Error")) (NewScanner (str "http://scanner"))
        (str "alpine:3.18")).value = ImageScanResult.zero := by
  have h := Get_ignores_status (serverWorld 500 (str "Internal Server Error"))
    (NewScanner (str "http://scanner")) (str "alpine:3.18")
    { StatusCode := 500, Body := str "Internal Server Error" } rfl rfl
  refine ⟨h.1, ?_⟩
  rw [h.2.1]
  decide

/-- C8: once its transport call has succeeded, `Get` returns the nil error
whatever the response body is and whatever the decoder reports, and so does
`GetAll`; and when the body is not JSON, so that the decoder's scanner fails on
it, the value returned is the zero value: the zero-value `ImageScanResult` for
`Get`, the nil slice for `GetAll`. -/
theorem decode_failure_is_not_returned (w : World) (s : Scanner) (image : GoString)
    (images : Slice GoString) :
    (∀ r1 : Response, w.httpGet (Get_scanResultURL s image) = .ok r1 →
      (Get w s image).err = none
        ∧ ((∃ e, w.readValue r1.Body = .error e) →
            (Get w s image).value = ImageScanResult.zero))
    ∧ ∃ url, GetAll_scanRequestsURL s images = some url
        ∧ ∀ r2 : Response, w.httpGet url = .ok r2 →
          ∃ o, GetAll w s images = some o ∧ o.err = none
            ∧ ((∃ e, w.readValue r2.Body = .error e) → o.value = none) := by
  constructor
  · intro r1 hGet
    have h1 : Get w s image
        = { trace := [Event.httpGet (Get_scanResultURL s image), Event.decode r1.Body,
              Event.logPrint, Event.bodyClose],
            value := (Decode w w.unmarshalScanResult r1.Body ImageScanResult.zero).1,
            err := none } := by
      unfold Get
      simp only [hGet]
    refine ⟨by rw [h1], ?_⟩
    rintro ⟨e, he⟩
    rw [h1]
    simp only [Decode, he]
  · refine ⟨_, GetAll_scanRequestsURL_eq s images, ?_⟩
    intro r2 hAll
    have h2 : GetAll w s images
        = some { trace := [Event.httpGet (GetAll_getURL s images).dropLast,
                   Event.decode r2.Body, Event.logPrint, Event.bodyClose],
                 value := (Decode w w.unmarshalSummaries r2.Body none).1,
                 err := none } := by
      unfold GetAll
      simp only [GetAll_scanRequestsURL_eq, hAll]
    refine ⟨_, h2, rfl, ?_⟩
    rintro ⟨e, he⟩
    simp only [Decode, he]

/-- C8 at a concrete input: the service answers `GetAll(["nginx:latest"])` and
`Get("nginx:latest")` with an HTML page. -/
theorem decode_failure_is_not_returned_witness :
    (∃ e, (serverWorld 200 (str "<html>oops</html>")).readValue (str "<html>oops</html>")
        = .error e)
    ∧ (Get (serverWorld 200 (str "<html>oops</html>")) (NewScanner (str "http://scanner"))
        (str "nginx:latest")).err = none
    ∧ (Get (serverWorld 200 (str "<html>oops</html>")) (NewScanner (str "http://scanner"))
        (str "nginx:latest")).value = ImageScanResult.zero
    ∧ ∃ o, GetAll (serverWorld 200 (str "<html>oops</html>")) (NewScanner (str "http://scanner"))
        (some [str "nginx:latest"]) = some o ∧ o.err = none ∧ o.value = none := by
  have hbad : ∃ e, (serverWorld 200 (str "<html>oops</html>")).readValue
      (str "<html>oops</html>") = .error e := ⟨_, rfl⟩
  have h := decode_failure_is_not_returned (serverWorld 200 (str "<html>oops</html>"))
    (NewScanner (str "http://scanner")) (str "nginx:latest") (some [str "nginx:latest"])
  have h1 := h.1 { StatusCode := 200, Body := str "<html>oops</html>" } rfl
  obtain ⟨url, _, h2⟩ := h.2
  obtain ⟨o, ho, herr, hval⟩ := h2 { StatusCode := 200, Body := str "<html>oops</html>" } rfl
  exact ⟨hbad, h1.1, h1.2 hbad, o, ho, herr, hval hbad⟩

/-! ### UTF-8: `ValidString` against `DecodeRuneInString` -/

set_option maxRecDepth 100000 in
theorem first_cases (b : GoByte) :
    0x80 ≤ b.val → first b ≠ 0xF1 →
      first b < 0xF0 ∧ (first b &&& 7 = 2 ∨ first b &&& 7 = 3 ∨ first b &&& 7 = 4)
        ∧ 0x80 ≤ (acceptRanges (first b >>> 4)).1.val
        ∧ (acceptRanges (first b >>> 4)).2.val ≤ 0xBF := by
  revert b
  decide

theorem valid_cases (fuel : Nat) (b : GoByte) (rest : GoString) (hb : 0x80 ≤ b.val)
    (hv : ValidStringLoop (fuel + 1) (b :: rest) = true) :
    first b ≠ 0xF1 ∧
    ((∃ c1 r1, rest = c1 :: r1 ∧ first b &&& 7 = 2
        ∧ ¬ (c1 < (acceptRanges (first b >>> 4)).1 ∨ (acceptRanges (first b >>> 4)).2 < c1)
        ∧ ValidStringLoop fuel r1 = true)
    ∨ (∃ c1 c2 r2, rest = c1 :: c2 :: r2 ∧ first b &&& 7 = 3
        ∧ ¬ (c1 < (acceptRanges (first b >>> 4)).1 ∨ (acceptRanges (first b >>> 4)).2 < c1)
        ∧ ¬ (c2 < 0x80 ∨ 0xBF < c2)
        ∧ ValidStringLoop fuel r2 = true)
    ∨ (∃ c1 c2 c3 r3, rest = c1 :: c2 :: c3 :: r3 ∧ first b &&& 7 = 4
        ∧ ¬ (c1 < (acceptRanges (first b >>> 4)).1 ∨ (acceptRanges (first b >>> 4)).2 < c1)
        ∧ ¬ (c2 < 0x80 ∨ 0xBF < c2) ∧ ¬ (c3 < 0x80 ∨ 0xBF < c3)
        ∧ ValidStringLoop fuel r3 = true)) := by
  have hb2 : ¬ b.val < 0x80 := by omega
  unfold ValidStringLoop at hv
  simp only [hb2, if_false] at hv
  by_cases hxx : first b = 0xF1
  · simp [hxx] at hv
  · refine ⟨hxx, ?_⟩
    simp only [hxx, if_false] at hv
    obtain ⟨_, hsz, _, _⟩ := first_cases b hb hxx
    split at hv
    · exact absurd hv (by simp)
    · cases rest with
      | nil => simp at hv
      | cons c1 r1 =>
        simp only at hv
        split at hv
        · exact absurd hv (by simp)
        · rename_i hc1
          split at hv
          · rename_i h2
            exact Or.inl ⟨c1, r1, rfl, h2, hc1, hv⟩
          · rename_i h2
            cases r1 with
            | nil => simp at hv
            | cons c2 r2 =>
              simp only at hv
              split at hv
              · exact absurd hv (by simp)
              · rename_i hc2
                split at hv
                · rename_i h3
                  exact Or.inr (Or.inl ⟨c1, c2, r2, rfl, h3, hc1, hc2, hv⟩)
                · rename_i h3
                  cases r2 with
                  | nil => simp at hv
                  | cons c3 r3 =>
                    simp only at hv
                    split at hv
                    · exact absurd hv (by simp)
                    · rename_i hc3
                      have h4 : first b &&& 7 = 4 := by
                        rcases hsz with h | h | h
                        · exact absurd h h2
                        · exact absurd h h3
                        · exact h
                      exact Or.inr (Or.inr ⟨c1, c2, c3, r3, rfl, h4, hc1, hc2, hc3, hv⟩)

theorem shiftLeft_or_2 (a c : Nat) (hc : c < 64) : (a <<< 6) ||| c = a * 64 + c := by
  rw [Nat.shiftLeft_eq]
  have h := Nat.mul_add_lt_is_or (show c < 2 ^ 6 by omega) a
  rw [Nat.mul_comm (2 ^ 6) a] at h
  rw [← h]

theorem shiftLeft_or_3 (a b c : Nat) (hb : b < 64) (hc : c < 64) :
    (a <<< 12) ||| (b <<< 6) ||| c = a * 4096 + b * 64 + c := by
  have h1 : (a <<< 12) ||| (b <<< 6) = (a * 64 + b) <<< 6 := by
    rw [Nat.shiftLeft_eq, Nat.shiftLeft_eq, Nat.shiftLeft_eq]
    have h := Nat.mul_add_lt_is_or (show b * 2 ^ 6 < 2 ^ 12 by omega) a
    rw [Nat.mul_comm (2 ^ 12) a] at h
    rw [← h]
    omega
  rw [h1, shiftLeft_or_2 _ _ hc]
  omega

theorem shiftLeft_or_4 (a b c d : Nat) (hb : b < 64) (hc : c < 64) (hd : d < 64) :
    (a <<< 18) ||| (b <<< 12) ||| (c <<< 6) ||| d
      = a * 262144 + b * 4096 + c * 64 + d := by
  have h1 : (a <<< 18) ||| (b <<< 12) = (a * 64 + b) <<< 12 := by
    rw [Nat.shiftLeft_eq, Nat.shiftLeft_eq, Nat.shiftLeft_eq]
    have h := Nat.mul_add_lt_is_or (show b * 2 ^ 12 < 2 ^ 18 by omega) a
    rw [Nat.mul_comm (2 ^ 18) a] at h
    rw [← h]
    omega
  rw [h1, shiftLeft_or_3 _ _ _ hc hd]
  omega

set_option maxRecDepth 100000 in
theorem land_masks (b : GoByte) :
    (b &&& 0x3F).val = b.val % 64 ∧ (b &&& 0x1F).val = b.val % 32
      ∧ (b &&& 0x0F).val = b.val % 16 ∧ (b &&& 0x07).val = b.val % 8 := by
  revert b
  decide

set_option maxRecDepth 100000 in
theorem first_by_size (b : GoByte) :
    (first b &&& 7 = 3 → 0xE0 ≤ b.val ∧ b.val ≤ 0xEF)
      ∧ (first b &&& 7 = 4 → b.val % 8 = 0 → (acceptRanges (first b >>> 4)).1.val = 0x90) := by
  revert b
  decide

theorem DecodeRuneInString_2 (b c1 : GoByte) (r1 : GoString) (hx : first b < 0xF0)
    (hsz : first b &&& 7 = 2)
    (hc1 : ¬ (c1 < (acceptRanges (first b >>> 4)).1 ∨ (acceptRanges (first b >>> 4)).2 < c1)) :
    DecodeRuneInString (b :: c1 :: r1) = (b.val % 32 * 64 + c1.val % 64, 2) := by
  have hx2 : ¬ first b ≥ 0xF0 := by omega
  unfold DecodeRuneInString
  simp only [hx2, if_false, hsz, hc1, List.length_cons]
  rw [if_neg (by omega), if_pos (by omega),
    shiftLeft_or_2 _ _ (by rw [(land_masks c1).1]; omega), (land_masks c1).1,
    (land_masks b).2.1]

theorem DecodeRuneInString_3 (b c1 c2 : GoByte) (r2 : GoString) (hx : first b < 0xF0)
    (hsz : first b &&& 7 = 3)
    (hc1 : ¬ (c1 < (acceptRanges (first b >>> 4)).1 ∨ (acceptRanges (first b >>> 4)).2 < c1))
    (hc2 : ¬ (c2 < 0x80 ∨ 0xBF < c2)) :
    DecodeRuneInString (b :: c1 :: c2 :: r2)
      = (b.val % 16 * 4096 + c1.val % 64 * 64 + c2.val % 64, 3) := by
  have hx2 : ¬ first b ≥ 0xF0 := by omega
  unfold DecodeRuneInString
  simp only [hx2, if_false, hsz, hc1, hc2, List.length_cons]
  rw [if_neg (by omega), if_neg (by omega), if_pos (by omega),
    shiftLeft_or_3 _ _ _ (by rw [(land_masks c1).1]; omega) (by rw [(land_masks c2).1]; omega),
    (land_masks c1).1, (land_masks c2).1, (land_masks b).2.2.1]

theorem DecodeRuneInString_4 (b c1 c2 c3 : GoByte) (r3 : GoString) (hx : first b < 0xF0)
    (hsz : first b &&& 7 = 4)
    (hc1 : ¬ (c1 < (acceptRanges (first b >>> 4)).1 ∨ (acceptRanges (first b >>> 4)).2 < c1))
    (hc2 : ¬ (c2 < 0x80 ∨ 0xBF < c2)) (hc3 : ¬ (c3 < 0x80 ∨ 0xBF < c3)) :
    DecodeRuneInString (b :: c1 :: c2 :: c3 :: r3)
      = (b.val % 8 * 262144 + c1.val % 64 * 4096 + c2.val % 64 * 64 + c3.val % 64, 4) := by
  have hx2 : ¬ first b ≥ 0xF0 := by omega
  unfold DecodeRuneInString
  simp only [hx2, if_false, hsz, hc1, hc2, hc3, List.length_cons]
  rw [if_neg (by omega), if_neg (by omega), if_neg (by omega),
    shiftLeft_or_4 _ _ _ _ (by rw [(land_masks c1).1]; omega)
      (by rw [(land_masks c2).1]; omega) (by rw [(land_masks c3).1]; omega),
    (land_masks c1).1, (land_masks c2).1, (land_masks c3).1, (land_masks b).2.2.2]

/-! ### Reading back what `appendString` writes -/

theorem readStringBody_mono (F k : Nat) (x : GoString) (v : GoString × GoString)
    (h : readStringBody F x = some v) : readStringBody (F + k) x = some v := by
  induction F generalizing x v with
  | zero => simp [readStringBody] at h
  | succ F ih =>
    cases x with
    | nil => simp [readStringBody] at h
    | cons c rest =>
      rw [Nat.add_right_comm]
      unfold readStringBody at h ⊢
      by_cases h1 : c = 0x22
      · simpa [h1] using h
      · by_cases h2 : c = 0x5C
        · simp only [h1, h2, if_true, if_false] at h ⊢
          cases he : readEscape rest with
          | none => simp [he] at h
          | some p =>
            obtain ⟨bytes, rest1⟩ := p
            simp only [he] at h ⊢
            cases hr : readStringBody F rest1 with
            | none => simp [hr] at h
            | some q =>
              simp only [hr] at h
              rw [ih rest1 q hr]
              exact h
        · simp only [h1, h2, if_false] at h ⊢
          by_cases h3 : c.val < 0x20
          · simp [h3] at h
          · simp only [h3, if_false] at h ⊢
            cases hr : readStringBody F rest with
            | none => simp [hr] at h
            | some q =>
              simp only [hr] at h
              rw [ih rest q hr]
              exact h

theorem ReadsAs_raw (c : GoByte) (h1 : c ≠ 0x22) (h2 : c ≠ 0x5C) (h3 : ¬ c.val < 0x20) :
    ReadsAs [c] [c] := by
  intro F t tail r h
  show readStringBody (F + 1) (c :: tail) = some (c :: t, r)
  unfold readStringBody
  simp only [h1, h2, h3, if_false, h]

theorem ReadsAs_append (e1 e2 r1 r2 : GoString) (h1 : ReadsAs e1 r1) (h2 : ReadsAs e2 r2) :
    ReadsAs (e1 ++ e2) (r1 ++ r2) := by
  intro F t tail r h
  have := h1 _ _ _ _ (h2 F t tail r h)
  rw [List.length_append, List.append_assoc, List.append_assoc]
  rw [show F + (e1.length + e2.length) = F + e2.length + e1.length by omega]
  exact this

theorem ReadsAs_escape (e raw : GoString)
    (h : ∀ tail, readEscape (e ++ tail) = some (raw, tail)) :
    ReadsAs (0x5C :: e) raw := by
  intro F t tail r hr
  have hm := readStringBody_mono F e.length tail (t, r) hr
  show readStringBody (F + (e.length + 1)) (0x5C :: (e ++ tail)) = some (raw ++ t, r)
  rw [show F + (e.length + 1) = (F + e.length) + 1 by omega]
  unfold readStringBody
  simp only [show ¬ ((0x5C : GoByte) = 0x22) by decide, if_false, if_true, h tail, hm]

theorem DecodeRuneInString_invalid_first (b : GoByte) (rest : GoString)
    (hxx : first b = 0xF1) : DecodeRuneInString (b :: rest) = (RuneError, 1) := by
  unfold DecodeRuneInString
  simp [hxx]

theorem decode_cases (b : GoByte) (rest : GoString) (hb : 0x80 ≤ b.val) :
    DecodeRuneInString (b :: rest) = (RuneError, 1)
    ∨ (first b ≠ 0xF1 ∧
      ((∃ c1 r1, rest = c1 :: r1 ∧ first b &&& 7 = 2
          ∧ ¬ (c1 < (acceptRanges (first b >>> 4)).1 ∨ (acceptRanges (first b >>> 4)).2 < c1))
      ∨ (∃ c1 c2 r2, rest = c1 :: c2 :: r2 ∧ first b &&& 7 = 3
          ∧ ¬ (c1 < (acceptRanges (first b >>> 4)).1 ∨ (acceptRanges (first b >>> 4)).2 < c1)
          ∧ ¬ (c2 < 0x80 ∨ 0xBF < c2))
      ∨ (∃ c1 c2 c3 r3, rest = c1 :: c2 :: c3 :: r3 ∧ first b &&& 7 = 4
          ∧ ¬ (c1 < (acceptRanges (first b >>> 4)).1 ∨ (acceptRanges (first b >>> 4)).2 < c1)
          ∧ ¬ (c2 < 0x80 ∨ 0xBF < c2) ∧ ¬ (c3 < 0x80 ∨ 0xBF < c3)))) := by
  by_cases hxx : first b = 0xF1
  · exact Or.inl (DecodeRuneInString_invalid_first b rest hxx)
  · obtain ⟨hx, hsz, _, _⟩ := first_cases b hb hxx
    have hx2 : ¬ first b ≥ 0xF0 := by omega
    cases rest with
    | nil =>
      left
      unfold DecodeRuneInString
      simp only [hx2, if_false, List.length_cons, List.length_nil]
      rw [if_pos (by omega)]
    | cons c1 r1 =>
      by_cases hc1 : c1 < (acceptRanges (first b >>> 4)).1 ∨ (acceptRanges (first b >>> 4)).2 < c1
      · left
        unfold DecodeRuneInString
        simp only [hx2, if_false, hc1, if_true]
        split <;> rfl
      · rcases hsz with h2 | h3 | h4
        · exact Or.inr ⟨hxx, Or.inl ⟨c1, r1, rfl, h2, hc1⟩⟩
        · cases r1 with
          | nil =>
            left
            unfold DecodeRuneInString
            simp only [hx2, if_false, h3, List.length_cons, List.length_nil]
            rw [if_pos (by omega)]
          | cons c2 r2 =>
            by_cases hc2 : c2 < 0x80 ∨ 0xBF < c2
            · left
              unfold DecodeRuneInString
              simp only [hx2, if_false, h3, hc1, hc2, if_true, List.length_cons]
              rw [if_neg (by omega), if_neg (by omega)]
            · exact Or.inr ⟨hxx, Or.inr (Or.inl ⟨c1, c2, r2, rfl, h3, hc1, hc2⟩)⟩
        · cases r1 with
          | nil =>
            left
            unfold DecodeRuneInString
            simp only [hx2, if_false, h4, List.length_cons, List.length_nil]
            rw [if_pos (by omega)]
          | cons c2 r2 =>
            by_cases hc2 : c2 < 0x80 ∨ 0xBF < c2
            · left
              unfold DecodeRuneInString
              simp only [hx2, if_false, h4, hc1, hc2, if_true, List.length_cons]
              split
              · rfl
              · rw [if_neg (by omega)]
            · cases r2 with
              | nil =>
                left
                unfold DecodeRuneInString
                simp only [hx2, if_false, h4, List.length_cons, List.length_nil]
                rw [if_pos (by omega)]
              | cons c3 r3 =>
                by_cases hc3 : c3 < 0x80 ∨ 0xBF < c3
                · left
                  unfold DecodeRuneInString
                  simp only [hx2, if_false, h4, hc1, hc2, hc3, if_true, List.length_cons]
                  rw [if_neg (by omega), if_neg (by omega), if_neg (by omega)]
                · exact Or.inr ⟨hxx, Or.inr (Or.inr
                    ⟨c1, c2, c3, r3, rfl, h4, hc1, hc2, hc3⟩)⟩

theorem readEscape_u (h1 h2 h3 h4 : GoByte) (a b c d : Nat) (tail : GoString)
    (e1 : hexValue h1 = some a) (e2 : hexValue h2 = some b) (e3 : hexValue h3 = some c)
    (e4 : hexValue h4 = some d) (hlt : a * 4096 + b * 256 + c * 16 + d < 0xD800 ∨
      0xE000 ≤ a * 4096 + b * 256 + c * 16 + d) :
    readEscape (ch 'u' :: h1 :: h2 :: h3 :: h4 :: tail)
      = some (utf8Encode (a * 4096 + b * 256 + c * 16 + d), tail) := by
  unfold readEscape
  simp only [show ¬ (ch 'u' = (0x22 : GoByte) ∨ ch 'u' = (0x5C : GoByte) ∨ ch 'u' = ch '/') by
      decide,
    show ¬ (ch 'u' = ch 'b') by decide, show ¬ (ch 'u' = ch 'f') by decide,
    show ¬ (ch 'u' = ch 'n') by decide, show ¬ (ch 'u' = ch 'r') by decide,
    show ¬ (ch 'u' = ch 't') by decide, if_false, if_true, readHex4, e1, e2, e3, e4]
  rw [if_neg (by omega), if_neg (by omega)]

set_option maxRecDepth 100000 in
theorem escapeASCII_digits (b : GoByte) :
    b.val < 0x80 →
      hexValue (hexAt (b.val >>> 4)) = some (b.val / 16)
        ∧ hexValue (hexAt (b.val &&& 0xF)) = some (b.val % 16)
        ∧ utf8Encode (0 * 4096 + 0 * 256 + b.val / 16 * 16 + b.val % 16) = [b] := by
  revert b
  decide

theorem ReadsAs_escapeASCII (enc : Encoder) (b : GoByte) (hb : b.val < 0x80) :
    ReadsAs (escapeASCII enc b) [b] := by
  unfold escapeASCII
  by_cases h1 : b = 0x5C ∨ b = 0x22
  · rw [if_pos h1]
    refine ReadsAs_escape [b] [b] (fun tail => ?_)
    rcases h1 with rfl | rfl <;> rfl
  · rw [if_neg h1]
    by_cases h08 : enc.shortControl = true ∧ b = 0x08
    · rw [if_pos h08, h08.2]
      exact ReadsAs_escape [ch 'b'] _ (fun tail => rfl)
    · rw [if_neg h08]
      by_cases h0C : enc.shortControl = true ∧ b = 0x0C
      · rw [if_pos h0C, h0C.2]
        exact ReadsAs_escape [ch 'f'] _ (fun tail => rfl)
      · rw [if_neg h0C]
        by_cases h2 : b = 0x0A
        · rw [if_pos h2, h2]
          exact ReadsAs_escape [ch 'n'] _ (fun tail => rfl)
        · rw [if_neg h2]
          by_cases h3 : b = 0x0D
          · rw [if_pos h3, h3]
            exact ReadsAs_escape [ch 'r'] _ (fun tail => rfl)
          · rw [if_neg h3]
            by_cases h4 : b = 0x09
            · rw [if_pos h4, h4]
              exact ReadsAs_escape [ch 't'] _ (fun tail => rfl)
            · rw [if_neg h4]
              obtain ⟨d1, d2, d3⟩ := escapeASCII_digits b hb
              refine ReadsAs_escape [ch 'u', ch '0', ch '0', hexAt (b.val >>> 4),
                hexAt (b.val &&& 0xF)] [b] (fun tail => ?_)
              have := readEscape_u (ch '0') (ch '0') (hexAt (b.val >>> 4))
                (hexAt (b.val &&& 0xF)) 0 0 (b.val / 16) (b.val % 16) tail (by decide)
                (by decide) d1 d2 (Or.inl (by omega))
              rw [d3] at this
              exact this

theorem readEscape_fffd (tail : GoString) :
    readEscape (ch 'u' :: ch 'f' :: ch 'f' :: ch 'f' :: ch 'd' :: tail)
      = some ([0xEF, 0xBF, 0xBD], tail) := by
  have := readEscape_u (ch 'f') (ch 'f') (ch 'f') (ch 'd') 15 15 15 13 tail
    (by decide) (by decide) (by decide) (by decide) (Or.inr (by omega))
  rw [this]
  have : utf8Encode (15 * 4096 + 15 * 256 + 15 * 16 + 13) = [0xEF, 0xBF, 0xBD] := by decide
  rw [this]

theorem readEscape_2028 (tail : GoString) :
    readEscape (ch 'u' :: ch '2' :: ch '0' :: ch '2' :: hexAt (0x2028 &&& 0xF) :: tail)
      = some ([0xE2, 0x80, 0xA8], tail) := by
  have := readEscape_u (ch '2') (ch '0') (ch '2') (hexAt (0x2028 &&& 0xF)) 2 0 2 8 tail
    (by decide) (by decide) (by decide) (by decide) (Or.inl (by omega))
  rw [this]
  have : utf8Encode (2 * 4096 + 0 * 256 + 2 * 16 + 8) = [0xE2, 0x80, 0xA8] := by decide
  rw [this]

theorem readEscape_2029 (tail : GoString) :
    readEscape (ch 'u' :: ch '2' :: ch '0' :: ch '2' :: hexAt (0x2029 &&& 0xF) :: tail)
      = some ([0xE2, 0x80, 0xA9], tail) := by
  have := readEscape_u (ch '2') (ch '0') (ch '2') (hexAt (0x2029 &&& 0xF)) 2 0 2 9 tail
    (by decide) (by decide) (by decide) (by decide) (Or.inl (by omega))
  rw [this]
  have : utf8Encode (2 * 4096 + 0 * 256 + 2 * 16 + 9) = [0xE2, 0x80, 0xA9] := by decide
  rw [this]

theorem ReadsAs_high (c : GoByte) (h : 0x80 ≤ c.val) : ReadsAs [c] [c] := by
  refine ReadsAs_raw c ?_ ?_ (by omega)
  · rintro rfl
    exact absurd h (by decide)
  · rintro rfl
    exact absurd h (by decide)

theorem ge_of_accepted (b c1 : GoByte) (hb : 0x80 ≤ b.val) (hxx : first b ≠ 0xF1)
    (hc1 : ¬ (c1 < (acceptRanges (first b >>> 4)).1 ∨ (acceptRanges (first b >>> 4)).2 < c1)) :
    (acceptRanges (first b >>> 4)).1.val ≤ c1.val ∧ 0x80 ≤ c1.val ∧ c1.val ≤ 0xBF := by
  obtain ⟨_, _, hlo, hhi⟩ := first_cases b hb hxx
  rw [not_or, Fin.not_lt, Fin.not_lt, Fin.le_def, Fin.le_def] at hc1
  omega

theorem ge_of_continuation (c : GoByte) (hc : ¬ (c < 0x80 ∨ 0xBF < c)) :
    0x80 ≤ c.val ∧ c.val ≤ 0xBF := by
  rw [not_or, Fin.not_lt, Fin.not_lt, Fin.le_def, Fin.le_def] at hc
  exact hc

theorem appendStringLoop_cons_high (enc : Encoder) (fuel : Nat) (b : GoByte) (rest : GoString)
    (hb : ¬ b.val < 0x80) :
    appendStringLoop enc (fuel + 1) (b :: rest)
      = if (DecodeRuneInString (b :: rest)).1 = RuneError
            ∧ (DecodeRuneInString (b :: rest)).2 = 1 then
          (if enc.rawReplacement = true then [0xEF, 0xBF, 0xBD]
            else [0x5C, ch 'u', ch 'f', ch 'f', ch 'f', ch 'd'])
            ++ appendStringLoop enc fuel rest
        else if (DecodeRuneInString (b :: rest)).1 = 0x2028
            ∨ (DecodeRuneInString (b :: rest)).1 = 0x2029 then
          [0x5C, ch 'u', ch '2', ch '0', ch '2',
              hexAt ((DecodeRuneInString (b :: rest)).1 &&& 0xF)]
            ++ appendStringLoop enc fuel ((b :: rest).drop (DecodeRuneInString (b :: rest)).2)
        else
          (b :: rest).take (DecodeRuneInString (b :: rest)).2
            ++ appendStringLoop enc fuel
              ((b :: rest).drop (DecodeRuneInString (b :: rest)).2) := by
  rw [appendStringLoop]
  simp only [hb, if_false]

theorem coerceLoop_cons_high (fuel : Nat) (b : GoByte) (rest : GoString)
    (hb : ¬ b.val < 0x80) :
    coerceLoop (fuel + 1) (b :: rest)
      = if (DecodeRuneInString (b :: rest)).1 = RuneError
            ∧ (DecodeRuneInString (b :: rest)).2 = 1 then
          [0xEF, 0xBF, 0xBD] ++ coerceLoop fuel rest
        else
          (b :: rest).take (DecodeRuneInString (b :: rest)).2
            ++ coerceLoop fuel ((b :: rest).drop (DecodeRuneInString (b :: rest)).2) := by
  rw [coerceLoop]
  simp only [hb, if_false]

theorem ReadsAs_replacement (enc : Encoder) :
    ReadsAs (if enc.rawReplacement = true then [0xEF, 0xBF, 0xBD]
      else [0x5C, ch 'u', ch 'f', ch 'f', ch 'f', ch 'd']) [0xEF, 0xBF, 0xBD] := by
  by_cases h : enc.rawReplacement = true
  · rw [if_pos h]
    exact ReadsAs_append [0xEF] [0xBF, 0xBD] [0xEF] [0xBF, 0xBD] (ReadsAs_high _ (by decide))
      (ReadsAs_append [0xBF] [0xBD] [0xBF] [0xBD] (ReadsAs_high _ (by decide))
        (ReadsAs_high _ (by decide)))
  · rw [if_neg h]
    exact ReadsAs_escape _ _ readEscape_fffd

/-- One iteration of `appendString` on a byte outside ASCII: the chunk `raw` of
the source that it consumes, the text `esc` that it writes, and the bytes `out`
that the text reads as, which are the chunk coerced to valid UTF-8. -/
theorem appendStringLoop_high (enc : Encoder) (fuel : Nat) (b : GoByte) (rest : GoString)
    (hb : 0x80 ≤ b.val) :
    ∃ esc raw out rest1, b :: rest = raw ++ rest1 ∧ raw ≠ []
      ∧ appendStringLoop enc (fuel + 1) (b :: rest) = esc ++ appendStringLoop enc fuel rest1
      ∧ coerceLoop (fuel + 1) (b :: rest) = out ++ coerceLoop fuel rest1
      ∧ ReadsAs esc out := by
  have hb2 : ¬ b.val < 0x80 := by omega
  rcases decode_cases b rest hb with hinv | ⟨hxx, hcases⟩
  · refine ⟨_, [b], [0xEF, 0xBF, 0xBD], rest, rfl, by simp, ?_, ?_, ReadsAs_replacement enc⟩
    · rw [appendStringLoop_cons_high enc fuel b _ hb2, hinv]
      rw [if_pos ⟨rfl, rfl⟩]
    · rw [coerceLoop_cons_high fuel b _ hb2, hinv]
      rw [if_pos ⟨rfl, rfl⟩]
  · obtain ⟨hx, _, _, _⟩ := first_cases b hb hxx
    rcases hcases with ⟨c1, r1, rfl, hsz, hc1⟩ | ⟨c1, c2, r2, rfl, hsz, hc1, hc2⟩
      | ⟨c1, c2, c3, r3, rfl, hsz, hc1, hc2, hc3⟩
    · have hd := DecodeRuneInString_2 b c1 r1 hx hsz hc1
      obtain ⟨_, g1, _⟩ := ge_of_accepted b c1 hb hxx hc1
      refine ⟨[b, c1], [b, c1], [b, c1], r1, rfl, by simp, ?_, ?_,
        ReadsAs_append [b] [c1] [b] [c1] (ReadsAs_high b hb) (ReadsAs_high c1 g1)⟩
      · rw [appendStringLoop_cons_high enc fuel b _ hb2, hd]
        rw [if_neg (by omega), if_neg (by omega)]
        rfl
      · rw [coerceLoop_cons_high fuel b _ hb2, hd]
        rw [if_neg (by omega)]
        rfl
    · have hd := DecodeRuneInString_3 b c1 c2 r2 hx hsz hc1 hc2
      obtain ⟨_, g1, k1⟩ := ge_of_accepted b c1 hb hxx hc1
      obtain ⟨g2, k2⟩ := ge_of_continuation c2 hc2
      obtain ⟨e0, e1⟩ := (first_by_size b).1 hsz
      have hstep : appendStringLoop enc (fuel + 1) (b :: c1 :: c2 :: r2)
          = (if b.val % 16 * 4096 + c1.val % 64 * 64 + c2.val % 64 = 0x2028
                ∨ b.val % 16 * 4096 + c1.val % 64 * 64 + c2.val % 64 = 0x2029 then
              [0x5C, ch 'u', ch '2', ch '0', ch '2',
                hexAt ((b.val % 16 * 4096 + c1.val % 64 * 64 + c2.val % 64) &&& 0xF)]
            else [b, c1, c2]) ++ appendStringLoop enc fuel r2 := by
        rw [appendStringLoop_cons_high enc fuel b _ hb2, hd]
        rw [if_neg (by omega)]
        split <;> rfl
      have hco : coerceLoop (fuel + 1) (b :: c1 :: c2 :: r2)
          = [b, c1, c2] ++ coerceLoop fuel r2 := by
        rw [coerceLoop_cons_high fuel b _ hb2, hd]
        rw [if_neg (by omega)]
        rfl
      by_cases h28 : b.val % 16 * 4096 + c1.val % 64 * 64 + c2.val % 64 = 0x2028
      · have hbytes : [b, c1, c2] = [0xE2, 0x80, 0xA8] := by
          have : b = 0xE2 := Fin.ext (show b.val = 0xE2 by omega)
          have : c1 = 0x80 := Fin.ext (show c1.val = 0x80 by omega)
          have : c2 = 0xA8 := Fin.ext (show c2.val = 0xA8 by omega)
          subst_vars
          rfl
        refine ⟨_, [b, c1, c2], [b, c1, c2], r2, rfl, by simp, hstep, hco, ?_⟩
        rw [if_pos (Or.inl h28), h28, hbytes]
        exact ReadsAs_escape _ _ readEscape_2028
      · by_cases h29 : b.val % 16 * 4096 + c1.val % 64 * 64 + c2.val % 64 = 0x2029
        · have hbytes : [b, c1, c2] = [0xE2, 0x80, 0xA9] := by
            have : b = 0xE2 := Fin.ext (show b.val = 0xE2 by omega)
            have : c1 = 0x80 := Fin.ext (show c1.val = 0x80 by omega)
            have : c2 = 0xA9 := Fin.ext (show c2.val = 0xA9 by omega)
            subst_vars
            rfl
          refine ⟨_, [b, c1, c2], [b, c1, c2], r2, rfl, by simp, hstep, hco, ?_⟩
          rw [if_pos (Or.inr h29), h29, hbytes]
          exact ReadsAs_escape _ _ readEscape_2029
        · refine ⟨_, [b, c1, c2], [b, c1, c2], r2, rfl, by simp, hstep, hco, ?_⟩
          rw [if_neg (by omega)]
          exact ReadsAs_append [b] [c1, c2] [b] [c1, c2] (ReadsAs_high b hb)
            (ReadsAs_append [c1] [c2] [c1] [c2] (ReadsAs_high c1 g1) (ReadsAs_high c2 g2))
    · have hd := DecodeRuneInString_4 b c1 c2 c3 r3 hx hsz hc1 hc2 hc3
      obtain ⟨glo, g1, k1⟩ := ge_of_accepted b c1 hb hxx hc1
      obtain ⟨g2, k2⟩ := ge_of_continuation c2 hc2
      obtain ⟨g3, k3⟩ := ge_of_continuation c3 hc3
      have h90 := (first_by_size b).2 hsz
      refine ⟨[b, c1, c2, c3], [b, c1, c2, c3], [b, c1, c2, c3], r3, rfl, by simp, ?_, ?_,
        ReadsAs_append [b] [c1, c2, c3] [b] [c1, c2, c3] (ReadsAs_high b hb)
          (ReadsAs_append [c1] [c2, c3] [c1] [c2, c3] (ReadsAs_high c1 g1)
            (ReadsAs_append [c2] [c3] [c2] [c3] (ReadsAs_high c2 g2) (ReadsAs_high c3 g3)))⟩
      · rw [appendStringLoop_cons_high enc fuel b _ hb2, hd]
        have hne : ¬ (b.val % 8 * 262144 + c1.val % 64 * 4096 + c2.val % 64 * 64
              + c3.val % 64 = 0x2028
            ∨ b.val % 8 * 262144 + c1.val % 64 * 4096 + c2.val % 64 * 64 + c3.val % 64
              = 0x2029) := by
          intro h
          have hb8 : b.val % 8 = 0 := by omega
          have := h90 hb8
          omega
        rw [if_neg (by omega), if_neg hne]
        rfl
      · rw [coerceLoop_cons_high fuel b _ hb2, hd]
        rw [if_neg (by omega)]
        rfl

set_option maxRecDepth 100000 in
theorem htmlSafeSet_raw (b : GoByte) :
    htmlSafeSet b = true → b ≠ 0x22 ∧ b ≠ 0x5C ∧ ¬ b.val < 0x20 := by
  revert b
  decide

theorem appendStringLoop_step (enc : Encoder) (fuel : Nat) (b : GoByte) (rest : GoString) :
    ∃ esc raw out rest1, b :: rest = raw ++ rest1 ∧ raw ≠ []
      ∧ appendStringLoop enc (fuel + 1) (b :: rest) = esc ++ appendStringLoop enc fuel rest1
      ∧ coerceLoop (fuel + 1) (b :: rest) = out ++ coerceLoop fuel rest1
      ∧ ReadsAs esc out := by
  by_cases hb : b.val < 0x80
  · have hco : coerceLoop (fuel + 1) (b :: rest) = [b] ++ coerceLoop fuel rest := by
      rw [coerceLoop]
      simp only [hb, if_true]
      rfl
    by_cases hs : htmlSafeSet b = true
    · obtain ⟨h1, h2, h3⟩ := htmlSafeSet_raw b hs
      refine ⟨[b], [b], [b], rest, rfl, by simp, ?_, hco, ReadsAs_raw b h1 h2 h3⟩
      rw [appendStringLoop]
      simp only [hb, hs, if_true]
      rfl
    · refine ⟨escapeASCII enc b, [b], [b], rest, rfl, by simp, ?_, hco,
        ReadsAs_escapeASCII enc b hb⟩
      rw [appendStringLoop]
      simp only [hb, hs, if_true, if_false, Bool.false_eq_true]
  · exact appendStringLoop_high enc fuel b rest (by omega)

theorem readStringBody_appendStringLoop (enc : Encoder) (fuel : Nat) (s : GoString)
    (hlen : s.length ≤ fuel) (tail : GoString) :
    readStringBody ((appendStringLoop enc fuel s).length + 1)
        (appendStringLoop enc fuel s ++ 0x22 :: tail) = some (coerceLoop fuel s, tail) := by
  induction fuel generalizing s with
  | zero =>
    have : s = [] := List.length_eq_zero.mp (by omega)
    subst this
    rfl
  | succ fuel ih =>
    cases s with
    | nil => rfl
    | cons b rest =>
      obtain ⟨esc, raw, out, rest1, hsplit, hne, hstep, hco, hreads⟩ :=
        appendStringLoop_step enc fuel b rest
      have hl : rest1.length ≤ fuel := by
        have h1 := congrArg List.length hsplit
        have h2 : 0 < raw.length := List.length_pos.mpr hne
        simp only [List.length_cons, List.length_append] at h1 hlen
        omega
      have := hreads _ _ _ _ (ih rest1 hl)
      rw [hstep, hco, List.length_append, List.append_assoc]
      rw [show esc.length + (appendStringLoop enc fuel rest1).length + 1
        = (appendStringLoop enc fuel rest1).length + 1 + esc.length by omega]
      exact this

/-- The string literal that `appendString` writes for a string reads back as
the string coerced to valid UTF-8. -/
theorem readString_appendString (enc : Encoder) (x tail : GoString) :
    readString (appendString enc x ++ tail) = some (coerceUTF8 x, tail) := by
  have h := readStringBody_appendStringLoop enc x.length x (Nat.le_refl _) tail
  unfold appendString readString
  simp only [List.cons_append, if_true, List.append_assoc, List.singleton_append,
    List.length_cons, List.length_append, List.nil_append, List.length_nil, Nat.zero_add]
  have := readStringBody_mono _ (1 + tail.length) _ _ h
  rw [show (appendStringLoop enc x.length x).length + 1 + (1 + tail.length)
    = (appendStringLoop enc x.length x).length + (tail.length + 1) + 1 by omega] at this
  exact this

/-- A valid UTF-8 string is not changed by the coercion. -/
theorem coerceLoop_of_valid (fuel : Nat) (s : GoString) (hlen : s.length ≤ fuel)
    (hv : ValidStringLoop fuel s = true) : coerceLoop fuel s = s := by
  induction fuel generalizing s with
  | zero =>
    have : s = [] := List.length_eq_zero.mp (by omega)
    subst this
    rfl
  | succ fuel ih =>
    cases s with
    | nil => rfl
    | cons b rest =>
      by_cases hb : b.val < 0x80
      · have hv1 : ValidStringLoop fuel rest = true := by
          rw [ValidStringLoop] at hv
          simpa only [hb, if_true] using hv
        rw [coerceLoop]
        simp only [hb, if_true]
        rw [ih rest (by simp only [List.length_cons] at hlen; omega) hv1]
      · have hb1 : 0x80 ≤ b.val := by omega
        obtain ⟨hxx, hcases⟩ := valid_cases fuel b rest hb1 hv
        obtain ⟨hx, _, _, _⟩ := first_cases b hb1 hxx
        rcases hcases with ⟨c1, r1, rfl, hsz, hc1, hv1⟩ | ⟨c1, c2, r2, rfl, hsz, hc1, hc2, hv2⟩
          | ⟨c1, c2, c3, r3, rfl, hsz, hc1, hc2, hc3, hv3⟩
        · rw [coerceLoop_cons_high fuel b _ hb, DecodeRuneInString_2 b c1 r1 hx hsz hc1]
          rw [if_neg (by omega)]
          have := ih r1 (by simp only [List.length_cons] at hlen; omega) hv1
          simp only [List.take, List.drop, this]
          rfl
        · rw [coerceLoop_cons_high fuel b _ hb, DecodeRuneInString_3 b c1 c2 r2 hx hsz hc1 hc2]
          rw [if_neg (by omega)]
          have := ih r2 (by simp only [List.length_cons] at hlen; omega) hv2
          simp only [List.take, List.drop, this]
          rfl
        · rw [coerceLoop_cons_high fuel b _ hb,
            DecodeRuneInString_4 b c1 c2 c3 r3 hx hsz hc1 hc2 hc3]
          rw [if_neg (by omega)]
          have := ih r3 (by simp only [List.length_cons] at hlen; omega) hv3
          simp only [List.take, List.drop, this]
          rfl

theorem coerceUTF8_of_valid (x : GoString) (hv : ValidString x = true) : coerceUTF8 x = x :=
  coerceLoop_of_valid x.length x (Nat.le_refl _) hv

theorem map_coerceUTF8_of_valid (l : List GoString) (hv : ∀ x ∈ l, ValidString x = true) :
    l.map coerceUTF8 = l := by
  induction l with
  | nil => rfl
  | cons x xs ih =>
    rw [List.map_cons, coerceUTF8_of_valid x (hv x (List.mem_cons_self _ _)),
      ih (fun y hy => hv y (List.mem_cons_of_mem _ hy))]

/-! ### Reading back the array that `Marshal` writes -/

theorem skipSpace_cons (c : GoByte) (t : GoString)
    (h : ¬ (c = 0x20 ∨ c = 0x09 ∨ c = 0x0A ∨ c = 0x0D)) : skipSpace (c :: t) = c :: t := by
  rw [skipSpace, if_neg h]

theorem appendString_eq_cons (enc : Encoder) (x : GoString) :
    appendString enc x = 0x22 :: (appendStringLoop enc x.length x ++ [0x22]) := rfl

theorem skipSpace_appendString (enc : Encoder) (x t : GoString) :
    skipSpace (appendString enc x ++ t) = appendString enc x ++ t := by
  rw [appendString_eq_cons, List.cons_append]
  exact skipSpace_cons _ _ (by decide)

theorem appendString_append_eq_cons (enc : Encoder) (x t : GoString) :
    appendString enc x ++ t = 0x22 :: (appendStringLoop enc x.length x ++ [0x22] ++ t) := rfl

theorem length_le_encodeArrayFrom (enc : Encoder) (xs : List GoString) (i : Nat) :
    xs.length ≤ (encodeArrayFrom enc i xs).length := by
  induction xs generalizing i with
  | nil => simp [encodeArrayFrom]
  | cons x xs ih =>
    have := ih (i + 1)
    simp only [encodeArrayFrom, List.length_append, List.length_cons, appendString_eq_cons]
    omega

theorem readElements_encodeArrayFrom (enc : Encoder) (xs : List GoString) (i F : Nat)
    (tail : GoString) (hi : 0 < i) (hF : xs.length < F) :
    readElements F (encodeArrayFrom enc i xs ++ ch ']' :: tail)
      = some (xs.map coerceUTF8, tail) := by
  induction xs generalizing i F with
  | nil =>
    obtain ⟨F1, rfl⟩ : ∃ F1, F = F1 + 1 := ⟨F - 1, by omega⟩
    simp only [encodeArrayFrom, List.nil_append, readElements]
    rw [skipSpace_cons _ _ (by decide)]
    simp only [if_true, List.map_nil]
  | cons x xs ih =>
    obtain ⟨F1, rfl⟩ : ∃ F1, F = F1 + 1 := ⟨F - 1, by omega⟩
    have hrest := ih (i + 1) F1 (by omega) (by simp only [List.length_cons] at hF; omega)
    have hstr := readString_appendString enc x (encodeArrayFrom enc (i + 1) xs ++ ch ']' :: tail)
    simp only [encodeArrayFrom, if_pos hi, List.append_assoc, List.singleton_append,
      List.cons_append, List.nil_append, readElements]
    rw [skipSpace_cons (ch ',') _ (by decide)]
    simp only [show ¬ (ch ',' = ch ']') by decide, if_false, if_true]
    rw [skipSpace_appendString, hstr]
    simp only [hrest, List.map_cons]

/-- The array that `Marshal` writes for a non-nil slice reads back as the slice
with every string coerced to valid UTF-8. -/
theorem decodeStringArray_Marshal (enc : Encoder) (l : List GoString) :
    decodeStringArray (Marshal enc (some l)) = some (l.map coerceUTF8) := by
  cases l with
  | nil => rfl
  | cons x xs =>
    have hstr := readString_appendString enc x (encodeArrayFrom enc 1 xs ++ [ch ']'])
    have hlen := length_le_encodeArrayFrom enc xs 1
    have hrest := readElements_encodeArrayFrom enc xs 1
      (ch '[' :: (appendString enc x ++ (encodeArrayFrom enc 1 xs ++ [ch ']']))).length []
      (by omega) (by simp only [List.length_cons, List.length_append]; omega)
    simp only [Marshal, encodeArrayFrom, Nat.lt_irrefl, if_false, List.nil_append,
      List.append_assoc, decodeStringArray]
    rw [skipSpace_cons (ch '[') _ (by decide)]
    simp only [if_true]
    rw [skipSpace_appendString, appendString_append_eq_cons]
    simp only [show ¬ ((0x22 : GoByte) = ch ']') by decide, if_false]
    rw [← appendString_append_eq_cons, hstr]
    simp only [Nat.zero_add, hrest, skipSpace, if_true, List.map_cons]

/-! ### The claim on `Scan` -/

theorem Scan_requests (w : World) (s : Scanner) (images : Slice GoString) :
    httpRequests (Scan w s images)
      = [Event.httpPost (s.ScannerURL ++ str "/scan/images") (str "application/json")
          (Marshal w.jsonEncoder images)] := by
  unfold Scan
  simp only
  cases w.httpPost (s.ScannerURL ++ str "/scan/images") (str "application/json")
      (Marshal w.jsonEncoder images) with
  | error e => rfl
  | ok resp => rfl

/-- C5 as stated fails: for the image list holding the one-byte string `0xFF`,
which is not valid UTF-8, the body of the POST is the array of one string,
written as the escape `\ufffd` by the encoders before the json v2 engine and as
the three bytes of U+FFFD by that engine; either body decodes to the three
bytes of U+FFFD and not to the list, and is also the body for the list holding
the one-byte string `0xFE`.  For the nil slice the body is `null`, which is not
a JSON array. -/
theorem Scan_body_does_not_decode_back :
    httpRequests (Scan (serverWorld 200 []) (NewScanner (str "http://scanner")) (some [[0xFF]]))
      = [Event.httpPost (str "http://scanner/scan/images") (str "application/json")
          [ch '[', 0x22, 0x5C, ch 'u', ch 'f', ch 'f', ch 'f', ch 'd', 0x22, ch ']']]
    ∧ decodeStringArray
        [ch '[', 0x22, 0x5C, ch 'u', ch 'f', ch 'f', ch 'f', ch 'd', 0x22, ch ']']
      = some [[0xEF, 0xBF, 0xBD]]
    ∧ httpRequests (Scan { serverWorld 200 [] with jsonEncoder := Encoder.v2 }
          (NewScanner (str "http://scanner")) (some [[0xFF]]))
      = [Event.httpPost (str "http://scanner/scan/images") (str "application/json")
          [ch '[', 0x22, 0xEF, 0xBF, 0xBD, 0x22, ch ']']]
    ∧ decodeStringArray [ch '[', 0x22, 0xEF, 0xBF, 0xBD, 0x22, ch ']']
      = some [[0xEF, 0xBF, 0xBD]]
    ∧ (some [[0xEF, 0xBF, 0xBD]] : Option (List GoString)) ≠ some [[0xFF]]
    ∧ Marshal Encoder.legacy (some [[0xFF]]) = Marshal Encoder.legacy (some [[0xFE]])
    ∧ Marshal Encoder.go122 (some [[0xFF]]) = Marshal Encoder.go122 (some [[0xFE]])
    ∧ Marshal Encoder.v2 (some [[0xFF]]) = Marshal Encoder.v2 (some [[0xFE]])
    ∧ httpRequests (Scan (serverWorld 200 []) (NewScanner (str "http://scanner")) none)
      = [Event.httpPost (str "http://scanner/scan/images") (str "application/json")
          (str "null")]
    ∧ decodeStringArray (str "null") = none := by
  decide

/-- C5, amended: for every base URL `B` and every image list `L`, `Scan`
issues exactly one HTTP request, a POST to `B + "/scan/images"` with content
type `application/json`, whose body is `json.Marshal(L)`: the JSON text `null`
when `L` is the nil slice, and otherwise a JSON array that decodes back to `L`
with every byte that is not part of a valid UTF-8 sequence replaced by U+FFFD
(same order, same length); when every string of `L` is valid UTF-8, it decodes
back to exactly `L`. -/
theorem Scan_posts_images (w : World) (s : Scanner) (images : Slice GoString) :
    httpRequests (Scan w s images)
      = [Event.httpPost (s.ScannerURL ++ str "/scan/images") (str "application/json")
          (Marshal w.jsonEncoder images)]
    ∧ match images with
      | none => Marshal w.jsonEncoder images = str "null"
      | some l =>
        decodeStringArray (Marshal w.jsonEncoder images) = some (l.map coerceUTF8)
          ∧ ((∀ x ∈ l, ValidString x = true) →
              decodeStringArray (Marshal w.jsonEncoder images) = some l) := by
  refine ⟨Scan_requests w s images, ?_⟩
  cases images with
  | none => rfl
  | some l =>
    refine ⟨decodeStringArray_Marshal w.jsonEncoder l, fun hvalid => ?_⟩
    rw [decodeStringArray_Marshal, map_coerceUTF8_of_valid l hvalid]

/-- C5, amended, at a concrete input: two image names, one with characters
that the encoder escapes, on the json v2 engine. -/
theorem Scan_posts_images_witness :
    (∀ x ∈ [str "nginx:latest", str "my/repo:<tag>&co"], ValidString x = true)
    ∧ ∃ body, httpRequests (Scan { serverWorld 200 [] with jsonEncoder := Encoder.v2 }
          (NewScanner (str "http://scanner"))
          (some [str "nginx:latest", str "my/repo:<tag>&co"]))
        = [Event.httpPost (str "http://scanner" ++ str "/scan/images")
            (str "application/json") body]
      ∧ decodeStringArray body = some [str "nginx:latest", str "my/repo:<tag>&co"] := by
  have hv : ∀ x ∈ [str "nginx:latest", str "my/repo:<tag>&co"], ValidString x = true := by
    decide
  have h := Scan_posts_images { serverWorld 200 [] with jsonEncoder := Encoder.v2 }
    (NewScanner (str "http://scanner")) (some [str "nginx:latest", str "my/repo:<tag>&co"])
  exact ⟨hv, _, h.1, h.2.2 hv⟩

end scanner
